import Mathlib

/-!
# Verification of the `gvizpivot` pivot-table library (`src/pivot2.js`)

This file gives a shallow embedding of `gvizpivot.PivotAgg` and the
`gvizpivot.utils` helpers, and proves/refutes the frozen claims about them.

Modelling conventions:
* JavaScript numbers are modelled by `gvizpivot.JsNum`, an exact rational
  number kept in normalized form (all operations are kernel-computable,
  unlike Mathlib's `Rat` arithmetic).  Floating-point rounding is outside
  the model; the claims are about the arithmetic expressions the code
  computes.
* A cell value is a `gvizpivot.Value`: `null`, a string, or a number.
* JavaScript objects used as dictionaries (`keysMap`, `columnColumn_IndexMap_`,
  `this.model`, `rowAggregationMap_`) are modelled by association lists
  (`jsGet`/`jsSet` have JS property read/write semantics: `jsSet` keeps the
  original insertion position of an existing key).  `for (var k in obj)`
  enumeration order is modelled by `jsStrIter`/`jsIntIter`: canonical
  array-index keys first in ascending numeric order, then the remaining
  keys in insertion order (the ECMAScript ordinary-object order).
* The abstract gviz `DataTable` capability is modelled by `Table`
  (`getValue` on a missing cell yields `null`; the library never reads
  out of bounds on its reachable paths).
-/

set_option autoImplicit false

namespace gvizpivot

/-! ## Exact rational numbers standing in for JS numbers -/

/-- An exact rational number (numerator, positive denominator), kept
normalized by the smart constructor `JsNum.norm`. -/
structure JsNum where
  num : Int
  den : Nat
deriving DecidableEq, Repr

/-- Normalize `n / d` by the gcd; `d = 0` (never produced by the library's
reachable arithmetic except division by zero, see claim C10) collapses to `0`. -/
def JsNum.norm (n : Int) (d : Nat) : JsNum :=
  if d = 0 then ⟨0, 1⟩
  else
    let g := Nat.gcd n.natAbs d
    ⟨n.ediv (g : Int), d / g⟩

def JsNum.ofInt (n : Int) : JsNum := ⟨n, 1⟩

def JsNum.add (a b : JsNum) : JsNum :=
  JsNum.norm (a.num * b.den + b.num * a.den) (a.den * b.den)

def JsNum.mul (a b : JsNum) : JsNum :=
  JsNum.norm (a.num * b.num) (a.den * b.den)

/-- Division; a zero divisor yields `0` in the model (JS produces
`NaN`/`Infinity`, which the rational model cannot represent — see C10). -/
def JsNum.div (a b : JsNum) : JsNum :=
  if b.num < 0 then JsNum.norm (-(a.num * b.den)) (a.den * b.num.natAbs)
  else JsNum.norm (a.num * b.den) (a.den * b.num.natAbs)

def JsNum.floor (a : JsNum) : Int := Int.fdiv a.num a.den

def JsNum.le (a b : JsNum) : Bool := decide (a.num * (b.den : Int) ≤ b.num * (a.den : Int))

/-- `String(x)` for a number: integers print as in JS; proper fractions use
`p/q` form (JS prints a decimal expansion — no claim depends on this form). -/
def JsNum.toStr (a : JsNum) : String :=
  if a.den = 1 then toString a.num else toString a.num ++ "/" ++ toString a.den

/-- JS `Math.round`: round half toward positive infinity. -/
def jsRound (a : JsNum) : Int := (a.add ⟨1, 2⟩).floor

/-! ## Cell values -/

/-- A JS value stored in a table cell: `null`, a string, or a number. -/
inductive Value where
  | null : Value
  | str : String → Value
  | num : JsNum → Value
deriving DecidableEq, Repr

/-- JS `String(v)`. -/
def Value.js_str : Value → String
  | .null => "null"
  | .str s => s
  | .num a => a.toStr

/-- How `Array.prototype.toString` renders one element: like `String(v)`
except that `null`/`undefined` render as the empty string. -/
def Value.joinStr : Value → String
  | .null => ""
  | v => v.js_str

/-- JS numeric coercion of a cell value, as consumed by
`google.visualization.data.sum` (numbers themselves; `null` counts as 0;
the claims only concern numeric cells, so strings also collapse to 0). -/
def Value.toNum : Value → JsNum
  | .num a => a
  | _ => ⟨0, 1⟩

/-- String comparison (code-unit order), total. -/
def strLe (a b : String) : Bool := compare a b != Ordering.gt

/-- The comparison JS `Array.prototype.sort()` applies when no comparator is
given: ascending order of the `String(·)` images. -/
def Value.jsSortLe (a b : Value) : Bool := strLe a.js_str b.js_str

/-- The natural ascending order on values used by the abstract table's
`getDistinctValues` (gviz returns distinct values in ascending order):
`null` first, then numbers by value, then strings in code-unit order. -/
def Value.natLe : Value → Value → Bool
  | .null, _ => true
  | _, .null => false
  | .num a, .num b => a.le b
  | .num _, .str _ => true
  | .str _, .num _ => false
  | .str a, .str b => strLe a b

/-! ## JS object dictionaries as association lists -/

/-- JS property read `obj[k]`: `none` models `undefined`. -/
def jsGet {κ α : Type} [DecidableEq κ] : List (κ × α) → κ → Option α
  | [], _ => none
  | (k', v) :: rest, k => if k' = k then some v else jsGet rest k

/-- JS property write `obj[k] = v`: overwriting keeps the key's original
insertion position; a fresh key is appended. -/
def jsSet {κ α : Type} [DecidableEq κ] : List (κ × α) → κ → α → List (κ × α)
  | [], k, v => [(k, v)]
  | (k', v') :: rest, k, v =>
      if k' = k then (k', v) :: rest else (k', v') :: jsSet rest k v

/-- The value of one decimal digit character. -/
def charDigit (c : Char) : Option Nat :=
  if c.isDigit then some (c.toNat - 48) else none

/-- Digits of a decimal string, if it consists only of digits. -/
def decDigits : List Char → Option Nat
  | [] => none
  | [c] => charDigit c
  | c :: rest =>
      match charDigit c, decDigits rest with
      | some d, some n => some (d * 10 ^ rest.length + n)
      | _, _ => none

/-- Whether a string is a canonical array-index property key
(ECMAScript: the decimal representation of an integer, no leading zeros). -/
def isArrayIdx (s : String) : Bool :=
  match decDigits s.data with
  | some n => toString n == s
  | none => false

/-- `for (var k in obj)` order for a string-keyed object: canonical
array-index keys first in ascending numeric order, then the remaining keys
in insertion order. -/
def jsStrIter {α : Type} (m : List (String × α)) : List (String × α) :=
  (m.filter (fun e => isArrayIdx e.1)).insertionSort
      (fun a b => (decDigits a.1.data).getD 0 ≤ (decDigits b.1.data).getD 0)
    ++ m.filter (fun e => !isArrayIdx e.1)

/-- `for (var k in obj)` order for an object whose keys are all array
indexes (`this.model`, `rowAggregationMap_`): ascending numeric order. -/
def jsIntIter {α : Type} (m : List (Nat × α)) : List (Nat × α) :=
  m.insertionSort (fun a b => a.1 ≤ b.1)

/-- First-occurrence deduplication (JS `Set`-like insertion semantics). -/
def dedupFirst {α : Type} [DecidableEq α] (l : List α) : List α :=
  l.foldl (fun acc a => if a ∈ acc then acc else acc ++ [a]) []

/-! ## The abstract gviz DataTable capability -/

structure Column where
  ctype : String
  label : Value
deriving DecidableEq, Repr

/-- The external "Table" capability: typed/labelled columns and a row list. -/
structure Table where
  cols : List Column
  rows : List (List Value)
deriving DecidableEq, Repr

def Table.getNumberOfRows (t : Table) : Nat := t.rows.length

/-- `getValue`; a missing cell reads as `null` (the library only reads
cells it knows exist). -/
def Table.getValue (t : Table) (r c : Nat) : Value :=
  ((t.rows.getD r []).getD c .null)

/-- `setValue`; out-of-range writes are dropped (the library only writes
cells it created). -/
def Table.setValue (t : Table) (r c : Nat) (v : Value) : Table :=
  { t with rows := t.rows.set r ((t.rows.getD r []).set c v) }

/-- `addColumn(type, label)`, returning the new table and the new column
index; existing rows gain a `null` cell. -/
def Table.addColumn (t : Table) (ctype : String) (label : Value) : Table × Nat :=
  ({ cols := t.cols ++ [⟨ctype, label⟩], rows := t.rows.map (· ++ [.null]) },
   t.cols.length)

/-- `addRow(values)`, returning the new table and the new row index. -/
def Table.addRow (t : Table) (vals : List Value) : Table × Nat :=
  ({ t with rows := t.rows ++ [vals] }, t.rows.length)

def Table.getColumnType (t : Table) (c : Nat) : String :=
  (t.cols.getD c ⟨"", .null⟩).ctype

def Table.getColumnLabel (t : Table) (c : Nat) : Value :=
  (t.cols.getD c ⟨"", .null⟩).label

/-- `getDistinctValues(col)`: the distinct values of a column in ascending
natural order. -/
def Table.getDistinctValues (t : Table) (c : Nat) : List Value :=
  (dedupFirst (t.rows.map (fun row => row.getD c .null))).insertionSort
    (fun a b => Value.natLe a b)

end gvizpivot

namespace gvizpivot

/-! ## Configuration (the `opts` object of `gvizpivot.PivotAgg`) -/

/-- A gviz formatter capability: side-effecting `format(table, columnIndex)`,
modelled as a table transformer. -/
def Formatter : Type := Table → Nat → Table

/-- One entry of `pivotKeyIndexes` (`type` is called `ktype` here). -/
structure KeyColumnSpec where
  column : Nat
  modifier : Option (Value → Value)
  ktype : Option String

/-- The `pivotColumnIndex` option group. -/
structure ColumnColumnSpec where
  column : Nat
  sortDesc : Bool
  aggregator : List Value → Value
  columnTitleModifier : Option (Value → Value)
  formatters : Option (List Formatter)

/-- The `pivotValueIndex` option group. -/
structure ValueColumnSpec where
  column : Nat

/-- One entry of `summaryColumns`. -/
structure SummaryColumnSpec where
  label : String
  aggregator : List Value → Value
  formatters : Option (List Formatter)
  applyOrder : Option String

/-- The options object; `none` models an absent (or JS-falsy) property.
`usePercentTotalValues` is documented as a boolean but compared against
the strings `'col'` and `'row'`; any other truthy value is `some` of some
other string and leaves the values untouched. -/
structure Options where
  pivotKeyIndexes : Option (List KeyColumnSpec)
  pivotColumnIndex : Option ColumnColumnSpec
  pivotValueIndex : Option ValueColumnSpec
  summaryColumns : Option (List SummaryColumnSpec)
  usePercentTotalValues : Option String

/-- The option fields after `parseOptions_` (`this.keyColumns_` etc.),
in the case where the mandatory-group check of `performPivotConversion_`
passes. -/
structure ParsedOptions where
  keyColumns : List KeyColumnSpec
  columnColumn : ColumnColumnSpec
  valueColumn : ValueColumnSpec
  summaryColumns : Option (List SummaryColumnSpec)
  usePercentTotalValues : Option String

/-- `parseOptions_` (each field read with `|| false`) combined with the
mandatory-group check at the top of `performPivotConversion_`: `none`
exactly when one of the three mandatory groups is absent. -/
def parseOptions (opts : Options) : Option ParsedOptions :=
  match opts.pivotKeyIndexes, opts.pivotColumnIndex, opts.pivotValueIndex with
  | some k, some c, some v =>
      some ⟨k, c, v, opts.summaryColumns, opts.usePercentTotalValues⟩
  | _, _, _ => none

/-! ## Builder state -/

/-- The mutable fields of a `PivotAgg` instance. -/
structure PivotState where
  out : Table
  keyColumnIndexMap : List (Nat × Nat)
  colMap : List (String × Nat)
  model : List (Nat × List (Nat × List Value))
  rowAgg : List (Nat × List Value)
deriving DecidableEq, Repr

/-- The state right after the constructor initializes its fields. -/
def initState : PivotState :=
  { out := ⟨[], []⟩, keyColumnIndexMap := [], colMap := [], model := [], rowAgg := [] }

/-! ## Core pipeline (`src/pivot2.js`) -/

/-- The loop of `addKeyColumns_` over an explicit spec list. -/
def addKeyColumnsAux (src : Table) (kcs : List KeyColumnSpec) (st : PivotState) : PivotState :=
  kcs.foldl
    (fun st kc =>
      let ty := kc.ktype.getD (src.getColumnType kc.column)
      let (out, idx) := st.out.addColumn ty (src.getColumnLabel kc.column)
      { st with out := out,
                keyColumnIndexMap := jsSet st.keyColumnIndexMap kc.column idx })
    st

/-- `addKeyColumns_`. -/
def addKeyColumns_ (src : Table) (p : ParsedOptions) (st : PivotState) : PivotState :=
  addKeyColumnsAux src p.keyColumns st

/-- Apply `columnTitleModifier` when configured (the same transformation is
applied in `addColumnColumns_` and in `buildModel_`). -/
def titleOf (cc : ColumnColumnSpec) (v : Value) : Value :=
  match cc.columnTitleModifier with
  | some f => f v
  | none => v

/-- The distinct pivot-source values in the order `addColumnColumns_`
traverses them: `distinct.sort()` (JS default sort: ascending order of the
stringified values), reversed unless `sortDesc` is truthy. -/
def orderedDistinct (src : Table) (cc : ColumnColumnSpec) : List Value :=
  let distinct := (src.getDistinctValues cc.column).insertionSort
      (fun a b => Value.jsSortLe a b)
  if cc.sortDesc then distinct else distinct.reverse

/-- The loop of `addColumnColumns_` over an explicit value list.  The
duplicate check is the JS truthiness test
`!this.columnColumn_IndexMap_[String(newColTitle)]`, which adds a column
when the stored index is missing OR equal to `0`. -/
def addColumnColumnsAux (ty : String) (cc : ColumnColumnSpec) (ds : List Value)
    (st : PivotState) : PivotState :=
  ds.foldl
    (fun st v =>
      let newColTitle := titleOf cc v
      if (jsGet st.colMap newColTitle.js_str).getD 0 = 0 then
        let (out, idx) := st.out.addColumn ty newColTitle
        { st with out := out, colMap := jsSet st.colMap newColTitle.js_str idx }
      else st)
    st

/-- `addColumnColumns_` (the new columns take the value column's type). -/
def addColumnColumns_ (src : Table) (p : ParsedOptions) (st : PivotState) : PivotState :=
  addColumnColumnsAux (src.getColumnType p.valueColumn.column) p.columnColumn
    (orderedDistinct src p.columnColumn) st

/-- `getDefaultRowExcludingKeyColumns_`: one `0` per key of
`columnColumn_IndexMap_`.  The JS caches the result in `this.defaultRow`;
`colMap` never changes after `addColumnColumns_`, so the cache is
semantically transparent and elided. -/
def getDefaultRowExcludingKeyColumns_ (st : PivotState) : List Value :=
  st.colMap.map (fun _ => Value.num ⟨0, 1⟩)

/-- The transformed key tuple of source row `i` (`keyArray`). -/
def keyTuple (src : Table) (p : ParsedOptions) (i : Nat) : List Value :=
  p.keyColumns.map (fun kc =>
    let val := src.getValue i kc.column
    let modVal := match kc.modifier with | some m => m val | none => val
    if kc.ktype = some "string" then Value.str modVal.js_str else modVal)

/-- The property key `keysMap[keyArray]` actually uses: JS coerces the
array to `keyArray.join(',')` (elements via `String(·)`, `null` as `""`). -/
def keyStr (src : Table) (p : ParsedOptions) (i : Nat) : String :=
  String.intercalate "," ((keyTuple src p i).map Value.joinStr)

/-- One iteration of the `buildModel_` loop over source rows.  The two
`.getD` fallbacks are never taken on reachable states: the `colMap` lookup
succeeds because the same title transformation was applied during schema
construction, and the `keysMap` lookup succeeds because the key was just
inserted. -/
def buildStep (src : Table) (p : ParsedOptions)
    (acc : List (String × Nat) × PivotState) (i : Nat) :
    List (String × Nat) × PivotState :=
  let (keysMap, st) := acc
  let kStr := keyStr src p i
  let (keysMap, st) :=
    match jsGet keysMap kStr with
    | some _ => (keysMap, st)
    | none =>
        let (out, newRowIndex) :=
          st.out.addRow (keyTuple src p i ++ getDefaultRowExcludingKeyColumns_ st)
        (jsSet keysMap kStr newRowIndex,
         { st with out := out,
                   model := jsSet st.model newRowIndex [],
                   rowAgg := jsSet st.rowAgg newRowIndex [] })
  let columnEntry := titleOf p.columnColumn (src.getValue i p.columnColumn.column)
  let value := src.getValue i p.valueColumn.column
  let columnIndex := (jsGet st.colMap columnEntry.js_str).getD 0
  let rowIndex := (jsGet keysMap kStr).getD 0
  let rowModel := (jsGet st.model rowIndex).getD []
  let cell := (jsGet rowModel columnIndex).getD []
  (keysMap,
   { st with model := jsSet st.model rowIndex (jsSet rowModel columnIndex (cell ++ [value])) })

/-- The `buildModel_` loop over an explicit list of source-row indexes. -/
def buildModelAux (src : Table) (p : ParsedOptions) (idxs : List Nat)
    (acc : List (String × Nat) × PivotState) : List (String × Nat) × PivotState :=
  idxs.foldl (buildStep src p) acc

/-- `buildModel_`: a single forward pass over the source rows.
`keysMap` is a local variable of the JS function and is dropped at the end. -/
def buildModel_ (src : Table) (p : ParsedOptions) (st : PivotState) : PivotState :=
  (buildModelAux src p (List.range src.getNumberOfRows) ([], st)).2

/-- `writeTableFromModel_`.  Faithful to the braces of the source: the
`rowAggregationMap_[rowIndex].push(resultValue)` statement sits OUTSIDE the
inner column loop (src/pivot2.js:311-312), and `resultValue` is a
function-scoped `var` (initially undefined, modelled `null`) that survives
across rows.  The two dead debug reads at lines 313-315 are effect-free
and elided. -/
def writeStep (agg : List Value → Value)
    (acc : Table × List (Nat × List Value) × Value)
    (entry : Nat × List (Nat × List Value)) :
    Table × List (Nat × List Value) × Value :=
  let (out, rowAgg, resultValue) := acc
  let (rowIndex, rowModel) := entry
  let (out, resultValue) :=
    (jsIntIter rowModel).foldl
      (fun (acc2 : Table × Value) (cell : Nat × List Value) =>
        (acc2.1.setValue rowIndex cell.1 (agg cell.2), agg cell.2))
      (out, resultValue)
  (out,
   jsSet rowAgg rowIndex (((jsGet rowAgg rowIndex).getD []) ++ [resultValue]),
   resultValue)

/-- The `writeTableFromModel_` loop over an explicit entry list. -/
def writeAux (agg : List Value → Value) (entries : List (Nat × List (Nat × List Value)))
    (acc : Table × List (Nat × List Value) × Value) :
    Table × List (Nat × List Value) × Value :=
  entries.foldl (writeStep agg) acc

def writeTableFromModel_ (p : ParsedOptions) (st : PivotState) : PivotState :=
  let (out, rowAgg, _) :=
    writeAux p.columnColumn.aggregator (jsIntIter st.model) (st.out, st.rowAgg, Value.null)
  { st with out := out, rowAgg := rowAgg }

/-- `getColumnIndexesArray` (the `this.columnIndexesArray` cache is
transparent: `colMap` is fixed once `addColumnColumns_` has run). -/
def getColumnIndexesArray (st : PivotState) : List Nat :=
  (jsStrIter st.colMap).map (·.2)

/-! ## Utility helpers (`gvizpivot.utils`) -/

/-- `gvizpivot.utils.getColumnEntries` (note `limit || numRows`: a zero or
absent limit means "all rows"). -/
def utils.getColumnEntries (t : Table) (c : Nat) (limit : Option Nat) : List Value :=
  let lim0 := match limit with
    | some n => if n = 0 then t.getNumberOfRows else n
    | none => t.getNumberOfRows
  let lim := if lim0 > t.getNumberOfRows then t.getNumberOfRows else lim0
  (List.range lim).map (fun m => t.getValue m c)

/-- `gvizpivot.utils.getRowValues`. -/
def utils.getRowValues (t : Table) (r : Nat) (colIndexes : List Nat) : List Value :=
  colIndexes.map (fun c => t.getValue r c)

/-- `google.visualization.data.sum` (external capability): sum of the
numeric coercions of the entries. -/
def sumNums (l : List Value) : JsNum :=
  l.foldl (fun acc v => acc.add v.toNum) ⟨0, 1⟩

/-- `gvizpivot.utils.getPercentTotalArray`: divides every entry by the sum
of the list, with no guard against a zero divisor. -/
def utils.getPercentTotalArray (arr : List Value) : List JsNum :=
  let sumOfCol := sumNums arr
  arr.map (fun v => v.toNum.div sumOfCol)

/-- `gvizpivot.utils.getColumnPercentTotalArray`. -/
def utils.getColumnPercentTotalArray (t : Table) (c : Nat) : List JsNum :=
  utils.getPercentTotalArray (utils.getColumnEntries t c none)

/-- `gvizpivot.utils.getRowPercentTotalArray`. -/
def utils.getRowPercentTotalArray (t : Table) (r : Nat) (cols : List Nat) : List JsNum :=
  utils.getPercentTotalArray (utils.getRowValues t r cols)

/-! ## Post-processing -/

/-- The value written for one converted cell:
`Math.round(newVals[j] * 10000) / 100`. -/
def percentCell (q : JsNum) : Value :=
  Value.num ((JsNum.ofInt (jsRound (q.mul ⟨10000, 1⟩))).div ⟨100, 1⟩)

/-- The inner write loop of the `'col'` branch of
`convertColumnsToPercentOfTotal_`. -/
def writeColVals (c : Nat) (newVals : List JsNum) (out : Table) : Table :=
  (List.range newVals.length).foldl
    (fun out j => out.setValue j c (percentCell (newVals.getD j ⟨0, 1⟩))) out

/-- The inner write loop of the `'row'` branch of
`convertColumnsToPercentOfTotal_`. -/
def writeRowVals (i : Nat) (cols : List Nat) (newVals : List JsNum) (out : Table) : Table :=
  (List.range cols.length).foldl
    (fun out j => out.setValue i (cols.getD j 0) (percentCell (newVals.getD j ⟨0, 1⟩))) out

/-- The `'col'` branch of `convertColumnsToPercentOfTotal_`: one pass per
generated column. -/
def convertColsAux (cols : List Nat) (out : Table) : Table :=
  cols.foldl
    (fun out c => writeColVals c (utils.getColumnPercentTotalArray out c) out) out

/-- The `'row'` branch of `convertColumnsToPercentOfTotal_`: one pass per
output row. -/
def convertRowsAux (cols : List Nat) (idxs : List Nat) (out : Table) : Table :=
  idxs.foldl
    (fun out i => writeRowVals i cols (utils.getRowPercentTotalArray out i cols) out) out

/-- `convertColumnsToPercentOfTotal_`. -/
def convertColumnsToPercentOfTotal_ (p : ParsedOptions) (st : PivotState) : PivotState :=
  let cols := getColumnIndexesArray st
  if p.usePercentTotalValues = some "col" then
    { st with out := convertColsAux cols st.out }
  else if p.usePercentTotalValues = some "row" then
    { st with out := convertRowsAux cols (List.range st.out.getNumberOfRows) st.out }
  else st

/-- `applyFormattingToColumns_`: outer loop over formatters, inner loop
over columns.  (The JS guard compares against `false` with `!=`, under
which an empty array is equal to `false`; either way an empty list makes
the loop a no-op, so the guard is transparent here.) -/
def applyFormattingToColumns_ (formatters : List Formatter) (colIndexes : List Nat)
    (t : Table) : Table :=
  formatters.foldl (fun t f => colIndexes.foldl (fun t c => f t c) t) t

/-- `addAggregationColumn_`. -/
def addAggregationColumn_ (scs : List SummaryColumnSpec)
    (st : PivotState) : PivotState :=
  let cols := getColumnIndexesArray st
  scs.foldl
    (fun st sc =>
      let (out, aggregationColumn) := st.out.addColumn "number" (.str sc.label)
      let out := (jsIntIter st.rowAgg).foldl
        (fun out e =>
          out.setValue e.1 aggregationColumn
            (sc.aggregator (utils.getRowValues out e.1 cols)))
        out
      let out := match sc.formatters with
        | some fs => applyFormattingToColumns_ fs [aggregationColumn] out
        | none => out
      { st with out := out })
    st

/-- `this.summaryColumns_[0].applyOrder` (JS throws on an empty list;
no claim concerns that corner, modelled as absent). -/
def firstApplyOrder (scs : List SummaryColumnSpec) : Option String :=
  match scs with
  | [] => none
  | sc :: _ => sc.applyOrder

/-- The four core phases of `performPivotConversion_`. -/
def coreState (src : Table) (p : ParsedOptions) : PivotState :=
  writeTableFromModel_ p
    (buildModel_ src p (addColumnColumns_ src p (addKeyColumns_ src p initState)))

/-- The `usePercentTotalValues_`-guarded conversion step. -/
def percentStep (p : ParsedOptions) (st : PivotState) : PivotState :=
  match p.usePercentTotalValues with
  | some _ => convertColumnsToPercentOfTotal_ p st
  | none => st

/-- The `columnColumn_.formatters`-guarded formatting step. -/
def formatStep (p : ParsedOptions) (st : PivotState) : PivotState :=
  match p.columnColumn.formatters with
  | some fs => { st with out := applyFormattingToColumns_ fs (getColumnIndexesArray st) st.out }
  | none => st

/-- `performPivotConversion_` after the mandatory-group check (which is
folded into `parseOptions`): the core phases followed by the optional
post-processing steps in the source's dispatch order. -/
def performPivotConversion_ (src : Table) (p : ParsedOptions) : PivotState :=
  let st := coreState src p
  let st := match p.summaryColumns with
    | some scs => if firstApplyOrder scs = some "before" then addAggregationColumn_ scs st else st
    | none => st
  let st := percentStep p st
  let st := formatStep p st
  match p.summaryColumns with
  | some scs => if firstApplyOrder scs ≠ some "before" then addAggregationColumn_ scs st else st
  | none => st

/-- The `gvizpivot.PivotAgg` constructor: parse options, fail on a missing
mandatory group, otherwise run the whole conversion. -/
def PivotAgg (dataTable : Table) (opts : Options) : Except String PivotState :=
  match parseOptions opts with
  | some p => .ok (performPivotConversion_ dataTable p)
  | none =>
      .error "Insufficient options provided: pivotKeyIndexes, pivotColumnIndex, pivotValueIndex must be provided"

/-- `getDataTable`. -/
def getDataTable (r : PivotState) : Table := r.out

/-- `getModel`. -/
def getModel (r : PivotState) : List (Nat × List (Nat × List Value)) := r.model

/-! ## Concrete material shared by examples and witnesses -/

/-- `google.visualization.data.sum` used as an aggregator. -/
def sumAgg : List Value → Value := fun l => Value.num (sumNums l)

/-- The sample table of the spec's scenario:
`(Oli,Mon,10),(Oli,Mon,15),(Kate,Mon,8),(Kate,Tue,15)`. -/
def sampleTable : Table :=
  { cols := [⟨"string", .str "Name"⟩, ⟨"string", .str "Day"⟩, ⟨"number", .str "Spend"⟩],
    rows := [[.str "Oli", .str "Mon", .num ⟨10, 1⟩],
             [.str "Oli", .str "Mon", .num ⟨15, 1⟩],
             [.str "Kate", .str "Mon", .num ⟨8, 1⟩],
             [.str "Kate", .str "Tue", .num ⟨15, 1⟩]] }

/-- key = name, pivot = day (sum), value = spend; no extras. -/
def sampleParsed : ParsedOptions :=
  { keyColumns := [⟨0, none, none⟩],
    columnColumn := ⟨1, false, sumAgg, none, none⟩,
    valueColumn := ⟨2⟩,
    summaryColumns := none,
    usePercentTotalValues := none }

example :
    (performPivotConversion_ sampleTable sampleParsed).out.rows =
      [[.str "Oli", .num ⟨0, 1⟩, .num ⟨25, 1⟩],
       [.str "Kate", .num ⟨15, 1⟩, .num ⟨8, 1⟩]] := by decide

end gvizpivot

namespace gvizpivot

/-! ## Basic lemmas about the JS dictionary model -/

theorem jsGet_jsSet_self {κ α : Type} [DecidableEq κ] (m : List (κ × α)) (k : κ) (v : α) :
    jsGet (jsSet m k v) k = some v := by
  induction m with
  | nil => simp [jsGet, jsSet]
  | cons kv rest ih =>
      by_cases h : kv.1 = k
      · simp [jsSet, jsGet, h]
      · simp only [jsSet, jsGet]
        rw [if_neg h]
        simp [jsGet, h, ih]

theorem jsGet_jsSet_ne {κ α : Type} [DecidableEq κ] (m : List (κ × α)) (k k' : κ) (v : α)
    (h : k ≠ k') : jsGet (jsSet m k v) k' = jsGet m k' := by
  induction m with
  | nil => simp [jsGet, jsSet, h]
  | cons kv rest ih =>
      by_cases hk : kv.1 = k
      · simp only [jsSet]
        rw [if_pos hk]
        simp only [jsGet]
        rw [if_neg (by rw [hk]; exact h), if_neg (by rw [hk]; exact h)]
      · simp only [jsSet]
        rw [if_neg hk]
        simp only [jsGet]
        by_cases hk' : kv.1 = k'
        · rw [if_pos hk', if_pos hk']
        · rw [if_neg hk', if_neg hk', ih]

theorem jsGet_eq_none_iff {κ α : Type} [DecidableEq κ] (m : List (κ × α)) (k : κ) :
    jsGet m k = none ↔ k ∉ m.map Prod.fst := by
  induction m with
  | nil => simp [jsGet]
  | cons kv rest ih =>
      by_cases h : kv.1 = k
      · simp [jsGet, h]
      · simp [jsGet, h, ih, Ne.symm h]

theorem jsSet_of_not_mem {κ α : Type} [DecidableEq κ] (m : List (κ × α)) (k : κ) (v : α)
    (h : jsGet m k = none) : jsSet m k v = m ++ [(k, v)] := by
  induction m with
  | nil => simp [jsSet]
  | cons kv rest ih =>
      simp only [jsGet] at h
      by_cases hk : kv.1 = k
      · rw [if_pos hk] at h; exact absurd h (by simp)
      · rw [if_neg hk] at h
        simp only [jsSet]
        rw [if_neg hk, ih h]
        simp

theorem jsSet_map_fst_of_mem {κ α : Type} [DecidableEq κ] (m : List (κ × α)) (k : κ) (v v' : α)
    (h : jsGet m k = some v') : (jsSet m k v).map Prod.fst = m.map Prod.fst := by
  induction m with
  | nil => simp [jsGet] at h
  | cons kv rest ih =>
      simp only [jsGet] at h
      by_cases hk : kv.1 = k
      · simp only [jsSet]
        rw [if_pos hk]
        simp
      · rw [if_neg hk] at h
        simp only [jsSet]
        rw [if_neg hk]
        simp [ih h]

theorem mem_jsSet {κ α : Type} [DecidableEq κ] (m : List (κ × α)) (k : κ) (v : α)
    (kv : κ × α) (h : kv ∈ jsSet m k v) : kv ∈ m ∨ kv = (k, v) := by
  induction m with
  | nil => simp [jsSet] at h; right; simp [h]
  | cons e rest ih =>
      simp only [jsSet] at h
      by_cases hk : e.1 = k
      · rw [if_pos hk] at h
        rcases List.mem_cons.mp h with h | h
        · right; rw [h, hk]
        · left; exact List.mem_cons_of_mem _ h
      · rw [if_neg hk] at h
        rcases List.mem_cons.mp h with h | h
        · left; rw [h]; exact List.mem_cons_self _ _
        · rcases ih h with h | h
          · exact Or.inl (List.mem_cons_of_mem _ h)
          · exact Or.inr h

/-! ## Basic lemmas about first-occurrence deduplication -/

theorem dedupFirst_go_mem {α : Type} [DecidableEq α] (l : List α) (acc : List α) (a : α) :
    a ∈ l.foldl (fun acc b => if b ∈ acc then acc else acc ++ [b]) acc ↔ a ∈ acc ∨ a ∈ l := by
  induction l generalizing acc with
  | nil => simp
  | cons b rest ih =>
      simp only [List.foldl_cons, ih]
      by_cases hb : b ∈ acc
      · simp only [if_pos hb]
        constructor
        · rintro (h | h)
          · exact Or.inl h
          · exact Or.inr (List.mem_cons_of_mem _ h)
        · rintro (h | h)
          · exact Or.inl h
          · rcases List.mem_cons.mp h with h | h
            · exact Or.inl (h ▸ hb)
            · exact Or.inr h
      · simp only [if_neg hb, List.mem_append, List.mem_singleton, List.mem_cons]
        tauto

theorem mem_dedupFirst {α : Type} [DecidableEq α] (l : List α) (a : α) :
    a ∈ dedupFirst l ↔ a ∈ l := by
  unfold dedupFirst
  rw [dedupFirst_go_mem]
  simp

theorem dedupFirst_append_singleton {α : Type} [DecidableEq α] (l : List α) (a : α) :
    dedupFirst (l ++ [a]) =
      if a ∈ dedupFirst l then dedupFirst l else dedupFirst l ++ [a] := by
  unfold dedupFirst
  rw [List.foldl_append]
  simp

theorem dedupFirst_length_le {α : Type} [DecidableEq α] (l : List α) :
    (dedupFirst l).length ≤ l.length := by
  have go : ∀ (l acc : List α),
      (l.foldl (fun acc b => if b ∈ acc then acc else acc ++ [b]) acc).length ≤
        acc.length + l.length := by
    intro l
    induction l with
    | nil => intro acc; simp
    | cons b rest ih =>
        intro acc
        simp only [List.foldl_cons]
        by_cases hb : b ∈ acc
        · rw [if_pos hb]
          calc _ ≤ acc.length + rest.length := ih acc
            _ ≤ acc.length + (b :: rest).length := by simp
        · rw [if_neg hb]
          calc _ ≤ (acc ++ [b]).length + rest.length := ih _
            _ = acc.length + (b :: rest).length := by simp [List.length_append]; omega
  have := go l []
  simpa [dedupFirst] using this

end gvizpivot

namespace gvizpivot

/-! ## Claim C7 — mandatory-option validation -/

/-- Claim C7: construction raises the configuration error immediately (no
output state is produced) if and only if one of the three mandatory option
groups — `pivotKeyIndexes`, `pivotColumnIndex`, `pivotValueIndex` — is
missing; every other configuration runs the conversion to completion (the
builder performs no other validation of its own). -/
theorem c7_mandatory_validation (dataTable : Table) (opts : Options) :
    (∃ e, PivotAgg dataTable opts = .error e) ↔
      (opts.pivotKeyIndexes = none ∨ opts.pivotColumnIndex = none ∨
        opts.pivotValueIndex = none) := by
  obtain ⟨k, c, v, s, u⟩ := opts
  cases k <;> cases c <;> cases v <;> simp [PivotAgg, parseOptions]

/-- Witness data for C7: a complete configuration over the sample table. -/
def sampleOpts : Options :=
  { pivotKeyIndexes := some [⟨0, none, none⟩],
    pivotColumnIndex := some ⟨1, false, sumAgg, none, none⟩,
    pivotValueIndex := some ⟨2⟩,
    summaryColumns := none,
    usePercentTotalValues := none }

/-! ## Claim C10 — unguarded division by the column total -/

/-- A source table whose only value cell is `0`: the single generated pivot
column aggregates to `0`, so its total at conversion time is `0`. -/
def zeroTable : Table :=
  { cols := [⟨"string", .str "Name"⟩, ⟨"string", .str "Day"⟩, ⟨"number", .str "Spend"⟩],
    rows := [[.str "Oli", .str "Mon", .num ⟨0, 1⟩]] }

/-- Options reaching the `'col'` percent conversion on `zeroTable`. -/
def zeroOpts : Options :=
  { pivotKeyIndexes := some [⟨0, none, none⟩],
    pivotColumnIndex := some ⟨1, false, sumAgg, none, none⟩,
    pivotValueIndex := some ⟨2⟩,
    summaryColumns := none,
    usePercentTotalValues := some "col" }

/-- `parseOptions zeroOpts`. -/
def zeroParsed : ParsedOptions :=
  { keyColumns := [⟨0, none, none⟩],
    columnColumn := ⟨1, false, sumAgg, none, none⟩,
    valueColumn := ⟨2⟩,
    summaryColumns := none,
    usePercentTotalValues := some "col" }

/-- The builder state right before `convertColumnsToPercentOfTotal_` runs
on `zeroTable`/`zeroOpts`. -/
def c10_pre : PivotState :=
  writeTableFromModel_ zeroParsed
    (buildModel_ zeroTable zeroParsed
      (addColumnColumns_ zeroTable zeroParsed
        (addKeyColumns_ zeroTable zeroParsed initState)))

/-- Claim C10: `utils.getPercentTotalArray` divides every entry by the list
sum with no zero-divisor guard, and a zero sum is reachable through the
public interface: constructing `PivotAgg zeroTable zeroOpts` runs the
`'col'` conversion on generated column `1`, whose (nonempty) entry list
sums to `0`, so the unguarded division `0 / 0` is performed (in this
rational model a zero divisor yields `0`; in JS it yields `NaN`). -/
theorem c10_division_by_zero_reachable :
    PivotAgg zeroTable zeroOpts = .ok (performPivotConversion_ zeroTable zeroParsed) ∧
    (zeroParsed.usePercentTotalValues = some "col" ∧
    getColumnIndexesArray c10_pre = [1] ∧
    utils.getColumnEntries c10_pre.out 1 none = [.num ⟨0, 1⟩] ∧
    sumNums (utils.getColumnEntries c10_pre.out 1 none) = ⟨0, 1⟩ ∧
    utils.getPercentTotalArray (utils.getColumnEntries c10_pre.out 1 none) =
      [JsNum.div ⟨0, 1⟩ ⟨0, 1⟩]) :=
  ⟨rfl, by decide⟩

/-! ## Claim C4 — the per-row aggregation-tracking buffer -/

/-- Two source rows with the same key but different pivot values: the single
output row's model entry holds two pivot columns. -/
def c4Table : Table :=
  { cols := [⟨"string", .str "Name"⟩, ⟨"string", .str "Day"⟩, ⟨"number", .str "Spend"⟩],
    rows := [[.str "Oli", .str "Mon", .num ⟨1, 1⟩],
             [.str "Oli", .str "Tue", .num ⟨2, 1⟩]] }

/-- Claim C4 (code bug): the spec says `rowAggregationMap_` ends up holding
the ordered sequence of ALL aggregated results of the row, one per pivot
column of the row's model entry.  In the source the
`rowAggregationMap_[rowIndex].push(resultValue)` statement sits outside the
inner column loop (src/pivot2.js:311-312, despite its indentation), so the
buffer receives a single entry per row — the aggregate of the LAST column
in iteration order.  Here: row `0`'s model entry has two pivot columns
(aggregates `2` for column 1 = Tue, then `1` for column 2 = Mon), yet the
buffer ends as `[1]` instead of the claimed `[2, 1]`. -/
theorem c4_rowAgg_push_outside_inner_loop :
    ((getModel (performPivotConversion_ c4Table sampleParsed)).map
        (fun e => (e.1, e.2.length)) = [(0, 2)]) ∧
    (performPivotConversion_ c4Table sampleParsed).rowAgg =
      [(0, [.num ⟨1, 1⟩])] ∧
    (performPivotConversion_ c4Table sampleParsed).rowAgg ≠
      [(0, [.num ⟨2, 1⟩, .num ⟨1, 1⟩])] := by
  decide

/-! ## Claim C1 — one output row per distinct key tuple? -/

/-- Two source rows with DISTINCT key tuples `("a,b", "c")` and
`("a", "b,c")` whose JS string coercions (`join(',')`) coincide. -/
def c1Table : Table :=
  { cols := [⟨"string", .str "A"⟩, ⟨"string", .str "B"⟩,
             ⟨"string", .str "Day"⟩, ⟨"number", .str "Spend"⟩],
    rows := [[.str "a,b", .str "c", .str "Mon", .num ⟨1, 1⟩],
             [.str "a", .str "b,c", .str "Mon", .num ⟨2, 1⟩]] }

/-- Two key columns over `c1Table`. -/
def c1Parsed : ParsedOptions :=
  { keyColumns := [⟨0, none, none⟩, ⟨1, none, none⟩],
    columnColumn := ⟨2, false, sumAgg, none, none⟩,
    valueColumn := ⟨3⟩,
    summaryColumns := none,
    usePercentTotalValues := none }

/-- Claim C1 counterexample: the two source rows have distinct key tuples,
yet the output has a single row — `keysMap` is keyed by the comma-joined
string form of the tuple, which collides here (`"a,b,c"` both times).  So
the number of output rows is NOT the number of distinct key tuples. -/
theorem c1_counterexample_tuple_collision :
    keyTuple c1Table c1Parsed 0 ≠ keyTuple c1Table c1Parsed 1 ∧
    keyStr c1Table c1Parsed 0 = keyStr c1Table c1Parsed 1 ∧
    (performPivotConversion_ c1Table c1Parsed).out.rows.length = 1 := by
  decide

end gvizpivot

namespace gvizpivot

/-! ## Structural lemmas: key-column phase -/

theorem addKeyColumnsAux_colMap (src : Table) (kcs : List KeyColumnSpec) (st : PivotState) :
    (addKeyColumnsAux src kcs st).colMap = st.colMap := by
  induction kcs generalizing st with
  | nil => rfl
  | cons kc rest ih => exact ih _

theorem addKeyColumnsAux_model (src : Table) (kcs : List KeyColumnSpec) (st : PivotState) :
    (addKeyColumnsAux src kcs st).model = st.model := by
  induction kcs generalizing st with
  | nil => rfl
  | cons kc rest ih => exact ih _

theorem addKeyColumnsAux_rowAgg (src : Table) (kcs : List KeyColumnSpec) (st : PivotState) :
    (addKeyColumnsAux src kcs st).rowAgg = st.rowAgg := by
  induction kcs generalizing st with
  | nil => rfl
  | cons kc rest ih => exact ih _

theorem addKeyColumnsAux_cols_length (src : Table) (kcs : List KeyColumnSpec) (st : PivotState) :
    (addKeyColumnsAux src kcs st).out.cols.length = st.out.cols.length + kcs.length := by
  induction kcs generalizing st with
  | nil => rfl
  | cons kc rest ih =>
      show (addKeyColumnsAux src rest _).out.cols.length = _
      rw [ih]
      simp [Table.addColumn]
      omega

theorem addKeyColumnsAux_rows_nil (src : Table) (kcs : List KeyColumnSpec) (st : PivotState)
    (h : st.out.rows = []) : (addKeyColumnsAux src kcs st).out.rows = [] := by
  induction kcs generalizing st with
  | nil => exact h
  | cons kc rest ih =>
      apply ih
      simp [Table.addColumn, h]

/-! ## Structural lemmas: pivot-column phase -/

theorem addColumnColumnsAux_cons (ty : String) (cc : ColumnColumnSpec) (d : Value)
    (ds : List Value) (st : PivotState) :
    addColumnColumnsAux ty cc (d :: ds) st =
      addColumnColumnsAux ty cc ds
        (if (jsGet st.colMap (titleOf cc d).js_str).getD 0 = 0 then
          { st with out := (st.out.addColumn ty (titleOf cc d)).1,
                    colMap := jsSet st.colMap (titleOf cc d).js_str
                        (st.out.addColumn ty (titleOf cc d)).2 }
        else st) := rfl

theorem addColumnColumnsAux_model (ty : String) (cc : ColumnColumnSpec) (ds : List Value)
    (st : PivotState) : (addColumnColumnsAux ty cc ds st).model = st.model := by
  induction ds generalizing st with
  | nil => rfl
  | cons d rest ih =>
      rw [addColumnColumnsAux_cons]
      by_cases h : (jsGet st.colMap (titleOf cc d).js_str).getD 0 = 0 <;>
        simp [h, ih]

theorem addColumnColumnsAux_rowAgg (ty : String) (cc : ColumnColumnSpec) (ds : List Value)
    (st : PivotState) : (addColumnColumnsAux ty cc ds st).rowAgg = st.rowAgg := by
  induction ds generalizing st with
  | nil => rfl
  | cons d rest ih =>
      rw [addColumnColumnsAux_cons]
      by_cases h : (jsGet st.colMap (titleOf cc d).js_str).getD 0 = 0 <;>
        simp [h, ih]

theorem addColumnColumnsAux_rows_nil (ty : String) (cc : ColumnColumnSpec) (ds : List Value)
    (st : PivotState) (h : st.out.rows = []) :
    (addColumnColumnsAux ty cc ds st).out.rows = [] := by
  induction ds generalizing st with
  | nil => exact h
  | cons d rest ih =>
      rw [addColumnColumnsAux_cons]
      by_cases hc : (jsGet st.colMap (titleOf cc d).js_str).getD 0 = 0
      · rw [if_pos hc]
        apply ih
        simp [Table.addColumn, h]
      · rw [if_neg hc]
        exact ih _ h

theorem jsGet_isSome_mem {κ α : Type} [DecidableEq κ] (m : List (κ × α)) (k : κ) (v : α)
    (h : jsGet m k = some v) : k ∈ m.map Prod.fst := by
  by_contra hmem
  rw [← jsGet_eq_none_iff] at hmem
  rw [hmem] at h
  exact Option.noConfusion h

theorem jsGet_mem {κ α : Type} [DecidableEq κ] (m : List (κ × α)) (k : κ) (v : α)
    (h : jsGet m k = some v) : (k, v) ∈ m := by
  induction m with
  | nil => exact absurd h (by simp [jsGet])
  | cons kv rest ih =>
      simp only [jsGet] at h
      by_cases hk : kv.1 = k
      · rw [if_pos hk] at h
        have : kv = (k, v) := by
          cases kv
          simp_all
        rw [← this]
        exact List.mem_cons_self _ _
      · rw [if_neg hk] at h
        exact List.mem_cons_of_mem _ (ih h)

/-- The main invariant of the pivot-column phase: starting from a state
whose column map holds only indexes in `[K, #cols)` with `K ≥ 1` (the key
columns occupy `[0, K)`), processing a value list `ds` (i) adds exactly one
output column per NEW transformed title string, (ii) keeps the map keyed by
the first-seen distinct title strings, and (iii) keeps all stored column
indexes distinct and inside `[K, #cols)`. -/
theorem addColumnColumnsAux_inv (ty : String) (cc : ColumnColumnSpec) (K : Nat)
    (ds : List Value) (st : PivotState)
    (h1 : 1 ≤ K) (hK : K ≤ st.out.cols.length)
    (hpos : ∀ kv ∈ st.colMap, K ≤ kv.2 ∧ kv.2 < st.out.cols.length)
    (hnd : (st.colMap.map Prod.snd).Nodup) :
    (addColumnColumnsAux ty cc ds st).out.cols.length + st.colMap.length =
        st.out.cols.length + (addColumnColumnsAux ty cc ds st).colMap.length ∧
    (addColumnColumnsAux ty cc ds st).colMap.map Prod.fst =
      (ds.map (fun v => (titleOf cc v).js_str)).foldl
        (fun acc s => if s ∈ acc then acc else acc ++ [s]) (st.colMap.map Prod.fst) ∧
    (∀ kv ∈ (addColumnColumnsAux ty cc ds st).colMap,
        K ≤ kv.2 ∧ kv.2 < (addColumnColumnsAux ty cc ds st).out.cols.length) ∧
    ((addColumnColumnsAux ty cc ds st).colMap.map Prod.snd).Nodup ∧
    st.out.cols.length ≤ (addColumnColumnsAux ty cc ds st).out.cols.length := by
  induction ds generalizing st with
  | nil =>
      exact ⟨rfl, rfl, hpos, hnd, le_refl _⟩
  | cons d rest ih =>
      rw [addColumnColumnsAux_cons]
      rcases hget : jsGet st.colMap (titleOf cc d).js_str with _ | idx
      · -- fresh title string: a column is appended and recorded
        simp only [Option.getD_none]
        rw [if_pos trivial]
        set s := (titleOf cc d).js_str with hs
        set st' : PivotState :=
          { st with out := (st.out.addColumn ty (titleOf cc d)).1,
                    colMap := jsSet st.colMap s (st.out.addColumn ty (titleOf cc d)).2 }
            with hst'
        have hmap' : st'.colMap = st.colMap ++ [(s, st.out.cols.length)] := by
          rw [hst']
          exact jsSet_of_not_mem _ _ _ hget
        have hcols' : st'.out.cols.length = st.out.cols.length + 1 := by
          simp [hst', Table.addColumn]
        have hpos' : ∀ kv ∈ st'.colMap, K ≤ kv.2 ∧ kv.2 < st'.out.cols.length := by
          intro kv hkv
          rw [hmap'] at hkv
          rcases List.mem_append.mp hkv with hkv | hkv
          · have := hpos kv hkv
            rw [hcols']
            exact ⟨this.1, by omega⟩
          · have : kv = (s, st.out.cols.length) := by simpa using hkv
            rw [this, hcols']
            exact ⟨hK, by omega⟩
        have hnd' : (st'.colMap.map Prod.snd).Nodup := by
          rw [hmap', List.map_append, List.nodup_append]
          refine ⟨hnd, List.nodup_singleton _, ?_⟩
          intro x hx hx2
          rcases List.mem_map.mp hx with ⟨kv, hkv, rfl⟩
          have hlt := (hpos kv hkv).2
          have : kv.2 = st.out.cols.length := by simpa using hx2
          omega
        have hK' : K ≤ st'.out.cols.length := by rw [hcols']; omega
        obtain ⟨e1, e2, e3, e4, e5⟩ := ih st' hK' hpos' hnd'
        have hlen' : st'.colMap.length = st.colMap.length + 1 := by
          rw [hmap']; simp
        have hsmem : s ∉ st.colMap.map Prod.fst := (jsGet_eq_none_iff _ _).mp hget
        have hmapfst : st'.colMap.map Prod.fst = st.colMap.map Prod.fst ++ [s] := by
          rw [hmap']; simp
        refine ⟨by omega, ?_, e3, e4, by omega⟩
        rw [List.map_cons, List.foldl_cons, if_neg hsmem, e2, hmapfst]
      · -- known title string (index ≥ K ≥ 1, hence truthy): no new column
        have hmem := jsGet_mem _ _ _ hget
        have hidxK : K ≤ idx := (hpos _ hmem).1
        simp only [Option.getD_some]
        rw [if_neg (by omega : ¬ idx = 0)]
        obtain ⟨e1, e2, e3, e4, e5⟩ := ih st hK hpos hnd
        have hsmem : (titleOf cc d).js_str ∈ st.colMap.map Prod.fst :=
          jsGet_isSome_mem _ _ _ hget
        refine ⟨e1, ?_, e3, e4, e5⟩
        rw [List.map_cons, List.foldl_cons, if_pos hsmem, e2]

end gvizpivot

namespace gvizpivot

/-! ## Claim C8 — duplicate transformed titles -/

/-- Pivot-source column with two DISTINCT raw values (the string `"3"` and
the number `3`) whose `String(·)` images coincide; `pivotKeyIndexes` is the
empty array, which is truthy in JS and passes the mandatory-group check. -/
def c8Table : Table :=
  { cols := [⟨"string", .str "P"⟩, ⟨"number", .str "V"⟩],
    rows := [[.str "3", .num ⟨5, 1⟩],
             [.num ⟨3, 1⟩, .num ⟨7, 1⟩]] }

/-- Options for `c8Table` (empty key-column list). -/
def c8Opts : Options :=
  { pivotKeyIndexes := some [],
    pivotColumnIndex := some ⟨0, false, sumAgg, none, none⟩,
    pivotValueIndex := some ⟨1⟩,
    summaryColumns := none,
    usePercentTotalValues := none }

/-- `parseOptions c8Opts`. -/
def c8Parsed : ParsedOptions :=
  { keyColumns := [],
    columnColumn := ⟨0, false, sumAgg, none, none⟩,
    valueColumn := ⟨1⟩,
    summaryColumns := none,
    usePercentTotalValues := none }

/-- Claim C8 counterexample: with no key columns the first generated column
gets index `0`, which is falsy, so the truthiness check
`!columnColumn_IndexMap_[String(newColTitle)]` RE-ADDS a column for the same
transformed title string: two distinct raw pivot values with equal
stringified titles yield TWO output columns, not exactly one. -/
theorem c8_counterexample_falsy_zero_index :
    parseOptions c8Opts = some c8Parsed ∧
    ((Value.str "3") ≠ (Value.num ⟨3, 1⟩) ∧
     Value.js_str (.str "3") = Value.js_str (.num ⟨3, 1⟩) ∧
     orderedDistinct c8Table c8Parsed.columnColumn = [.str "3", .num ⟨3, 1⟩] ∧
     (addColumnColumns_ c8Table c8Parsed
        (addKeyColumns_ c8Table c8Parsed initState)).out.cols.length = 2) :=
  ⟨rfl, by decide⟩

/-- Claim C8 (amended): PROVIDED at least one key column is configured (so
every generated column index is at least 1, hence truthy), schema
construction creates exactly one output column per distinct transformed
title string — the column map is keyed by the stringified titles, in
first-seen order — and every raw pivot value's transformed title resolves
to a column index, so two values with the same string form share one
column. -/
theorem c8_duplicate_titles_collapse (src : Table) (p : ParsedOptions)
    (h : p.keyColumns ≠ []) :
    (addColumnColumns_ src p (addKeyColumns_ src p initState)).out.cols.length =
        p.keyColumns.length +
          (addColumnColumns_ src p (addKeyColumns_ src p initState)).colMap.length ∧
    (addColumnColumns_ src p (addKeyColumns_ src p initState)).colMap.map Prod.fst =
      dedupFirst ((orderedDistinct src p.columnColumn).map
        (fun v => (titleOf p.columnColumn v).js_str)) ∧
    ∀ v ∈ orderedDistinct src p.columnColumn,
      ∃ idx, jsGet (addColumnColumns_ src p (addKeyColumns_ src p initState)).colMap
          (titleOf p.columnColumn v).js_str = some idx := by
  have hmap1 : (addKeyColumns_ src p initState).colMap = [] :=
    addKeyColumnsAux_colMap _ _ _
  have hlen1 : (addKeyColumns_ src p initState).out.cols.length = p.keyColumns.length := by
    rw [addKeyColumns_, addKeyColumnsAux_cols_length]
    simp [initState]
  have hKpos : 1 ≤ p.keyColumns.length :=
    Nat.succ_le_of_lt (List.length_pos.mpr h)
  obtain ⟨e1, e2, e3, e4, e5⟩ :=
    addColumnColumnsAux_inv (src.getColumnType p.valueColumn.column) p.columnColumn
      p.keyColumns.length (orderedDistinct src p.columnColumn)
      (addKeyColumns_ src p initState) hKpos (le_of_eq hlen1.symm)
      (by rw [hmap1]; intro kv hkv; exact absurd hkv (List.not_mem_nil _))
      (by rw [hmap1]; exact List.nodup_nil)
  rw [addColumnColumns_]
  refine ⟨?_, ?_, ?_⟩
  · rw [hmap1] at e1
    simp only [List.length_nil] at e1
    rw [hlen1] at e1
    omega
  · rw [e2, hmap1]
    rfl
  · intro v hv
    have hvmem : (titleOf p.columnColumn v).js_str ∈
        (addColumnColumnsAux (src.getColumnType p.valueColumn.column) p.columnColumn
          (orderedDistinct src p.columnColumn) (addKeyColumns_ src p initState)).colMap.map
            Prod.fst := by
      rw [e2, hmap1]
      show _ ∈ dedupFirst _
      rw [mem_dedupFirst]
      exact List.mem_map_of_mem _ hv
    rcases hres : jsGet (addColumnColumnsAux (src.getColumnType p.valueColumn.column)
        p.columnColumn (orderedDistinct src p.columnColumn)
        (addKeyColumns_ src p initState)).colMap (titleOf p.columnColumn v).js_str with _ | idx
    · rw [jsGet_eq_none_iff] at hres
      exact absurd hvmem hres
    · exact ⟨idx, rfl⟩

/-- Witness for C8 (amended) at the sample configuration. -/
theorem c8_duplicate_titles_collapse_witness :
    sampleParsed.keyColumns ≠ [] ∧
    ((addColumnColumns_ sampleTable sampleParsed
        (addKeyColumns_ sampleTable sampleParsed initState)).out.cols.length =
        sampleParsed.keyColumns.length +
          (addColumnColumns_ sampleTable sampleParsed
            (addKeyColumns_ sampleTable sampleParsed initState)).colMap.length ∧
     (addColumnColumns_ sampleTable sampleParsed
        (addKeyColumns_ sampleTable sampleParsed initState)).colMap.map Prod.fst =
      dedupFirst ((orderedDistinct sampleTable sampleParsed.columnColumn).map
        (fun v => (titleOf sampleParsed.columnColumn v).js_str)) ∧
     ∀ v ∈ orderedDistinct sampleTable sampleParsed.columnColumn,
      ∃ idx, jsGet (addColumnColumns_ sampleTable sampleParsed
          (addKeyColumns_ sampleTable sampleParsed initState)).colMap
          (titleOf sampleParsed.columnColumn v).js_str = some idx) :=
  ⟨by simp [sampleParsed], c8_duplicate_titles_collapse sampleTable sampleParsed
      (by simp [sampleParsed])⟩

end gvizpivot

namespace gvizpivot

/-! ## Claim C3 — sort-then-reverse column ordering -/

theorem strLe_iff (a b : String) : (strLe a b = true) ↔ a ≤ b := by
  rw [← @compare_le_iff_le String _ a b]
  unfold strLe
  rcases compare a b with _ | _ | _ <;> decide

theorem dedupFirst_nodup {α : Type} [DecidableEq α] (l : List α) : (dedupFirst l).Nodup := by
  have go : ∀ (l acc : List α), acc.Nodup →
      (l.foldl (fun acc b => if b ∈ acc then acc else acc ++ [b]) acc).Nodup := by
    intro l
    induction l with
    | nil => intro acc h; exact h
    | cons b rest ih =>
        intro acc h
        simp only [List.foldl_cons]
        by_cases hb : b ∈ acc
        · rw [if_pos hb]; exact ih acc h
        · rw [if_neg hb]
          exact ih _ (by
            rw [List.nodup_append]
            exact ⟨h, List.nodup_singleton _, by
              intro x hx hx2
              have : x = b := by simpa using hx2
              exact hb (this ▸ hx)⟩)
  exact go l [] List.nodup_nil

/-- When every title string of `ds` is fresh (no duplicates among them, none
already mapped), each processed value appends exactly one column, in
traversal order. -/
theorem addColumnColumnsAux_cols_of_fresh (ty : String) (cc : ColumnColumnSpec)
    (ds : List Value) (st : PivotState)
    (hnd : (ds.map (fun v => (titleOf cc v).js_str)).Nodup)
    (hdisj : ∀ v ∈ ds, (titleOf cc v).js_str ∉ st.colMap.map Prod.fst) :
    (addColumnColumnsAux ty cc ds st).out.cols =
      st.out.cols ++ ds.map (fun v => Column.mk ty (titleOf cc v)) := by
  induction ds generalizing st with
  | nil => simp [addColumnColumnsAux]
  | cons d rest ih =>
      rw [addColumnColumnsAux_cons]
      have hget : jsGet st.colMap (titleOf cc d).js_str = none := by
        rw [jsGet_eq_none_iff]
        exact hdisj d (List.mem_cons_self _ _)
      rw [hget]
      simp only [Option.getD_none]
      rw [if_pos trivial]
      set s := (titleOf cc d).js_str with hs
      set st' : PivotState :=
        { st with out := (st.out.addColumn ty (titleOf cc d)).1,
                  colMap := jsSet st.colMap s (st.out.addColumn ty (titleOf cc d)).2 }
          with hst'
      have hmap' : st'.colMap = st.colMap ++ [(s, st.out.cols.length)] := by
        rw [hst']
        exact jsSet_of_not_mem _ _ _ hget
      have hnd' : (rest.map (fun v => (titleOf cc v).js_str)).Nodup :=
        (List.nodup_cons.mp (by simpa using hnd)).2
      have hhead : s ∉ rest.map (fun v => (titleOf cc v).js_str) :=
        (List.nodup_cons.mp (by simpa using hnd)).1
      have hdisj' : ∀ v ∈ rest, (titleOf cc v).js_str ∉ st'.colMap.map Prod.fst := by
        intro v hv
        rw [hmap', List.map_append]
        intro hmem
        rcases List.mem_append.mp hmem with hmem | hmem
        · exact hdisj v (List.mem_cons_of_mem _ hv) hmem
        · have : (titleOf cc v).js_str = s := by simpa using hmem
          exact hhead (this ▸ List.mem_map_of_mem _ hv)
      rw [ih st' hnd' hdisj']
      have : st'.out.cols = st.out.cols ++ [Column.mk ty (titleOf cc d)] := by
        rw [hst']
        rfl
      rw [this, List.append_assoc]
      rfl

/-- Claim C3: `addColumnColumns_` first sorts the distinct pivot-source
values ascending (JS default sort: ascending in the string images — the
natural order for string-valued pivot columns) and reverses that order
exactly when `sortDesc` is false or absent; the generated columns appear
after the key columns in exactly that traversal order.  Stated under the
hypothesis that distinct raw values have distinct stringified titles (no
title collisions — C8 covers collisions). -/
theorem c3_sort_then_reverse (src : Table) (p : ParsedOptions)
    (hinj : ∀ v ∈ src.getDistinctValues p.columnColumn.column,
        ∀ w ∈ src.getDistinctValues p.columnColumn.column,
          (titleOf p.columnColumn v).js_str = (titleOf p.columnColumn w).js_str → v = w) :
    List.Pairwise (fun a b => Value.jsSortLe a b = true)
      ((src.getDistinctValues p.columnColumn.column).insertionSort
        (fun a b => Value.jsSortLe a b)) ∧
    orderedDistinct src p.columnColumn =
      (if p.columnColumn.sortDesc then
        (src.getDistinctValues p.columnColumn.column).insertionSort
          (fun a b => Value.jsSortLe a b)
      else ((src.getDistinctValues p.columnColumn.column).insertionSort
          (fun a b => Value.jsSortLe a b)).reverse) ∧
    (addColumnColumns_ src p (addKeyColumns_ src p initState)).out.cols =
      (addKeyColumns_ src p initState).out.cols ++
        (orderedDistinct src p.columnColumn).map
          (fun v => Column.mk (src.getColumnType p.valueColumn.column)
            (titleOf p.columnColumn v)) := by
  haveI htotal : IsTotal Value (fun a b => Value.jsSortLe a b = true) :=
    ⟨fun a b => by
      simp only [Value.jsSortLe, strLe_iff]
      exact le_total _ _⟩
  haveI htrans : IsTrans Value (fun a b => Value.jsSortLe a b = true) :=
    ⟨fun a b c hab hbc => by
      simp only [Value.jsSortLe, strLe_iff] at hab hbc ⊢
      exact le_trans hab hbc⟩
  refine ⟨List.sorted_insertionSort _ _, rfl, ?_⟩
  have hperm : ∀ v, v ∈ (src.getDistinctValues p.columnColumn.column).insertionSort
      (fun a b => Value.jsSortLe a b) ↔ v ∈ src.getDistinctValues p.columnColumn.column :=
    fun v => List.mem_insertionSort _
  have hmemOD : ∀ v, v ∈ orderedDistinct src p.columnColumn ↔
      v ∈ src.getDistinctValues p.columnColumn.column := by
    intro v
    unfold orderedDistinct
    by_cases hsd : p.columnColumn.sortDesc
    · simp [hsd, hperm]
    · simp [hsd, hperm]
  have hndOD : (orderedDistinct src p.columnColumn).Nodup := by
    have h0 : (src.getDistinctValues p.columnColumn.column).Nodup := by
      unfold Table.getDistinctValues
      exact ((List.perm_insertionSort _ _).nodup_iff).mpr (dedupFirst_nodup _)
    have h1 : ((src.getDistinctValues p.columnColumn.column).insertionSort
        (fun a b => Value.jsSortLe a b)).Nodup :=
      ((List.perm_insertionSort _ _).nodup_iff).mpr h0
    unfold orderedDistinct
    by_cases hsd : p.columnColumn.sortDesc
    · simpa [hsd] using h1
    · simpa [hsd] using h1
  have hnd : ((orderedDistinct src p.columnColumn).map
      (fun v => (titleOf p.columnColumn v).js_str)).Nodup := by
    apply hndOD.map_on
    intro x hx y hy hxy
    exact hinj x ((hmemOD x).mp hx) y ((hmemOD y).mp hy) hxy
  have hdisj : ∀ v ∈ orderedDistinct src p.columnColumn,
      (titleOf p.columnColumn v).js_str ∉
        (addKeyColumns_ src p initState).colMap.map Prod.fst := by
    intro v hv
    rw [addKeyColumns_, addKeyColumnsAux_colMap]
    intro hmem
    exact absurd hmem (List.not_mem_nil _)
  exact addColumnColumnsAux_cols_of_fresh _ _ _ _ hnd hdisj

/-- Witness for C3: the sample scenario (default `sortDesc`), where the
injectivity hypothesis holds and the generated columns come out as
`[Tue, Mon]` — the reversed ascending order. -/
theorem c3_sort_then_reverse_witness :
    (∀ v ∈ sampleTable.getDistinctValues sampleParsed.columnColumn.column,
        ∀ w ∈ sampleTable.getDistinctValues sampleParsed.columnColumn.column,
          (titleOf sampleParsed.columnColumn v).js_str =
              (titleOf sampleParsed.columnColumn w).js_str → v = w) ∧
    (List.Pairwise (fun a b => Value.jsSortLe a b = true)
      ((sampleTable.getDistinctValues sampleParsed.columnColumn.column).insertionSort
        (fun a b => Value.jsSortLe a b)) ∧
    orderedDistinct sampleTable sampleParsed.columnColumn =
      (if sampleParsed.columnColumn.sortDesc then
        (sampleTable.getDistinctValues sampleParsed.columnColumn.column).insertionSort
          (fun a b => Value.jsSortLe a b)
      else ((sampleTable.getDistinctValues sampleParsed.columnColumn.column).insertionSort
          (fun a b => Value.jsSortLe a b)).reverse) ∧
    (addColumnColumns_ sampleTable sampleParsed
        (addKeyColumns_ sampleTable sampleParsed initState)).out.cols =
      (addKeyColumns_ sampleTable sampleParsed initState).out.cols ++
        (orderedDistinct sampleTable sampleParsed.columnColumn).map
          (fun v => Column.mk
            (sampleTable.getColumnType sampleParsed.valueColumn.column)
            (titleOf sampleParsed.columnColumn v))) :=
  ⟨by decide, c3_sort_then_reverse sampleTable sampleParsed (by decide)⟩

end gvizpivot

namespace gvizpivot

/-! ## Cell-level frame lemmas -/

theorem list_set_of_le {α : Type} (l : List α) (i : Nat) (a : α) (h : l.length ≤ i) :
    l.set i a = l := by
  induction l generalizing i with
  | nil => rfl
  | cons x xs ih =>
      cases i with
      | zero => exact absurd h (by simp)
      | succ j =>
          simp only [List.set]
          rw [ih j (by simpa using h)]

theorem list_getD_set_ne {α : Type} (l : List α) (i j : Nat) (a d : α) (h : i ≠ j) :
    (l.set i a).getD j d = l.getD j d := by
  induction l generalizing i j with
  | nil => rfl
  | cons x xs ih =>
      cases i with
      | zero =>
          cases j with
          | zero => exact absurd rfl h
          | succ j' => rfl
      | succ i' =>
          cases j with
          | zero => rfl
          | succ j' =>
              simp only [List.set, List.getD_cons_succ]
              exact ih i' j' (fun he => h (by rw [he]))

theorem list_getD_set_self {α : Type} (l : List α) (i : Nat) (a d : α) (h : i < l.length) :
    (l.set i a).getD i d = a := by
  induction l generalizing i with
  | nil => exact absurd h (by simp)
  | cons x xs ih =>
      cases i with
      | zero => rfl
      | succ i' =>
          simp only [List.set, List.getD_cons_succ]
          exact ih i' (by simpa using h)

theorem Table.getValue_setValue_ne (t : Table) (r c r' c' : Nat) (v : Value)
    (h : r ≠ r' ∨ c ≠ c') :
    (t.setValue r c v).getValue r' c' = t.getValue r' c' := by
  unfold Table.setValue Table.getValue
  by_cases hr : r = r'
  · subst hr
    rcases h with h | h
    · exact absurd rfl h
    · by_cases hlen : r < t.rows.length
      · simp only []
        rw [list_getD_set_self _ _ _ _ hlen, list_getD_set_ne _ _ _ _ _ h]
      · rw [list_set_of_le _ _ _ (Nat.le_of_not_lt hlen)]
  · simp only []
    rw [list_getD_set_ne _ _ _ _ _ hr]

theorem Table.setValue_rows_length (t : Table) (r c : Nat) (v : Value) :
    (t.setValue r c v).rows.length = t.rows.length := by
  simp [Table.setValue]

theorem Table.setValue_cols (t : Table) (r c : Nat) (v : Value) :
    (t.setValue r c v).cols = t.cols := rfl

/-! ## Frame lemmas for the percent-of-total write loops -/

theorem list_getD_mem {α : Type} (l : List α) (j : Nat) (d : α) (h : j < l.length) :
    l.getD j d ∈ l := by
  induction l generalizing j with
  | nil => exact absurd h (by simp)
  | cons x xs ih =>
      cases j with
      | zero => exact List.mem_cons_self _ _
      | succ j' =>
          simp only [List.getD_cons_succ]
          exact List.mem_cons_of_mem _ (ih j' (by simpa using h))

theorem writeColVals_getValue_ne (c : Nat) (newVals : List JsNum) (out : Table)
    (r c' : Nat) (h : c' ≠ c) :
    (writeColVals c newVals out).getValue r c' = out.getValue r c' := by
  unfold writeColVals
  generalize List.range newVals.length = js
  induction js generalizing out with
  | nil => rfl
  | cons j rest ih =>
      rw [List.foldl_cons, ih]
      exact Table.getValue_setValue_ne _ _ _ _ _ _ (Or.inr (fun he => h he.symm))

theorem writeRowVals_getValue_ne (i : Nat) (cols : List Nat) (newVals : List JsNum)
    (out : Table) (r' c' : Nat) (h : c' ∉ cols) :
    (writeRowVals i cols newVals out).getValue r' c' = out.getValue r' c' := by
  unfold writeRowVals
  have aux : ∀ (js : List Nat), (∀ j ∈ js, j < cols.length) → ∀ (out : Table),
      (js.foldl (fun out j =>
        out.setValue i (cols.getD j 0) (percentCell (newVals.getD j ⟨0, 1⟩))) out).getValue
          r' c' = out.getValue r' c' := by
    intro js
    induction js with
    | nil => intro _ out; rfl
    | cons j rest ih =>
        intro hjs out
        rw [List.foldl_cons, ih (fun x hx => hjs x (List.mem_cons_of_mem _ hx))]
        refine Table.getValue_setValue_ne _ _ _ _ _ _ (Or.inr ?_)
        intro he
        apply h
        rw [← he]
        exact list_getD_mem _ _ _ (hjs j (List.mem_cons_self _ _))
  exact aux _ (fun j hj => (List.mem_range.mp hj)) out

theorem convertColsAux_getValue_ne (cols : List Nat) (out : Table) (r c : Nat)
    (h : c ∉ cols) :
    (convertColsAux cols out).getValue r c = out.getValue r c := by
  induction cols generalizing out with
  | nil => rfl
  | cons c0 rest ih =>
      rw [convertColsAux, List.foldl_cons]
      show (convertColsAux rest _).getValue r c = _
      rw [ih _ (fun hm => h (List.mem_cons_of_mem _ hm))]
      exact writeColVals_getValue_ne _ _ _ _ _ (fun he => h (he ▸ List.mem_cons_self _ _))

theorem convertRowsAux_getValue_ne (cols idxs : List Nat) (out : Table) (r c : Nat)
    (h : c ∉ cols) :
    (convertRowsAux cols idxs out).getValue r c = out.getValue r c := by
  induction idxs generalizing out with
  | nil => rfl
  | cons i rest ih =>
      rw [convertRowsAux, List.foldl_cons]
      show (convertRowsAux cols rest _).getValue r c = _
      rw [ih _]
      exact writeRowVals_getValue_ne _ _ _ _ _ _ h

theorem mem_jsStrIter {α : Type} (m : List (String × α)) (e : String × α)
    (h : e ∈ jsStrIter m) : e ∈ m := by
  unfold jsStrIter at h
  rcases List.mem_append.mp h with h | h
  · exact List.mem_filter.mp ((List.mem_insertionSort _).mp h) |>.1
  · exact (List.mem_filter.mp h).1

/-! ## Claim C9 — the conversion touches only generated pivot columns -/

/-- Claim C9: `convertColumnsToPercentOfTotal_` modifies only cells whose
column index is one of the generated pivot columns
(`getColumnIndexesArray`), in `'col'` and `'row'` mode alike (and is the
identity otherwise); and (with at least one key column configured) every
generated column index lies in `[#keyColumns, #cols-after-schema)`, so key
columns — indexes below `#keyColumns` — and summary columns — appended at
indexes at or beyond the schema width — are untouched. -/
theorem c9_percent_conversion_frame (src : Table) (p : ParsedOptions) (st : PivotState)
    (r c : Nat) (hc : c ∉ getColumnIndexesArray st) (hkey : p.keyColumns ≠ []) :
    (convertColumnsToPercentOfTotal_ p st).out.getValue r c = st.out.getValue r c ∧
    (∀ i ∈ getColumnIndexesArray
        (addColumnColumns_ src p (addKeyColumns_ src p initState)),
      p.keyColumns.length ≤ i ∧
        i < (addColumnColumns_ src p (addKeyColumns_ src p initState)).out.cols.length) := by
  constructor
  · unfold convertColumnsToPercentOfTotal_
    by_cases h1 : p.usePercentTotalValues = some "col"
    · rw [if_pos h1]
      exact convertColsAux_getValue_ne _ _ _ _ hc
    · rw [if_neg h1]
      by_cases h2 : p.usePercentTotalValues = some "row"
      · rw [if_pos h2]
        exact convertRowsAux_getValue_ne _ _ _ _ _ hc
      · rw [if_neg h2]
  · intro i hi
    have hmap1 : (addKeyColumns_ src p initState).colMap = [] :=
      addKeyColumnsAux_colMap _ _ _
    have hlen1 : (addKeyColumns_ src p initState).out.cols.length = p.keyColumns.length := by
      rw [addKeyColumns_, addKeyColumnsAux_cols_length]
      simp [initState]
    have hKpos : 1 ≤ p.keyColumns.length :=
      Nat.succ_le_of_lt (List.length_pos.mpr hkey)
    obtain ⟨e1, e2, e3, e4, e5⟩ :=
      addColumnColumnsAux_inv (src.getColumnType p.valueColumn.column) p.columnColumn
        p.keyColumns.length (orderedDistinct src p.columnColumn)
        (addKeyColumns_ src p initState) hKpos (le_of_eq hlen1.symm)
        (by rw [hmap1]; intro kv hkv; exact absurd hkv (List.not_mem_nil _))
        (by rw [hmap1]; exact List.nodup_nil)
    unfold getColumnIndexesArray at hi
    rcases List.mem_map.mp hi with ⟨e, he, rfl⟩
    exact e3 e (mem_jsStrIter _ _ he)

/-- Witness for C9 at a concrete reachable state: the key-column cell
`(0,0)` of the `zeroTable` run survives the `'col'` conversion. -/
theorem c9_percent_conversion_frame_witness :
    (0 ∉ getColumnIndexesArray c10_pre ∧ zeroParsed.keyColumns ≠ []) ∧
    ((convertColumnsToPercentOfTotal_ zeroParsed c10_pre).out.getValue 0 0 =
        c10_pre.out.getValue 0 0 ∧
    (∀ i ∈ getColumnIndexesArray
        (addColumnColumns_ zeroTable zeroParsed (addKeyColumns_ zeroTable zeroParsed initState)),
      zeroParsed.keyColumns.length ≤ i ∧
        i < (addColumnColumns_ zeroTable zeroParsed
              (addKeyColumns_ zeroTable zeroParsed initState)).out.cols.length)) :=
  ⟨⟨by decide, by simp [zeroParsed]⟩,
    c9_percent_conversion_frame zeroTable zeroParsed c10_pre 0 0 (by decide)
      (by simp [zeroParsed])⟩

end gvizpivot

namespace gvizpivot

/-! ## Reading back the percent-of-total writes ('col' mode) -/

theorem Table.getValue_setValue_self (t : Table) (r c : Nat) (v : Value)
    (hr : r < t.rows.length) (hc : c < (t.rows.getD r []).length) :
    (t.setValue r c v).getValue r c = v := by
  unfold Table.setValue Table.getValue
  simp only []
  rw [list_getD_set_self _ _ _ _ hr, list_getD_set_self _ _ _ _ hc]

theorem Table.setValue_row_length (t : Table) (r' c' : Nat) (v : Value) (r : Nat) :
    ((t.setValue r' c' v).rows.getD r []).length = (t.rows.getD r []).length := by
  unfold Table.setValue
  by_cases hr : r' = r
  · subst hr
    by_cases hlen : r' < t.rows.length
    · simp only []
      rw [list_getD_set_self _ _ _ _ hlen]
      simp
    · rw [list_set_of_le _ _ _ (Nat.le_of_not_lt hlen)]
  · simp only []
    rw [list_getD_set_ne _ _ _ _ _ hr]

theorem list_getD_map {α β : Type} (f : α → β) (l : List α) (j : Nat) (d : β) (d' : α)
    (h : j < l.length) : (l.map f).getD j d = f (l.getD j d') := by
  induction l generalizing j with
  | nil => exact absurd h (by simp)
  | cons x xs ih =>
      cases j with
      | zero => rfl
      | succ j' =>
          simp only [List.map_cons, List.getD_cons_succ]
          exact ih j' (by simpa using h)

theorem list_getD_range (n j : Nat) (h : j < n) : (List.range n).getD j 0 = j := by
  rw [List.getD_eq_getElem?_getD, List.getElem?_eq_getElem (by simpa using h)]
  simp

theorem writeColVals_rows_length (c : Nat) (newVals : List JsNum) (out : Table) :
    (writeColVals c newVals out).rows.length = out.rows.length := by
  unfold writeColVals
  generalize List.range newVals.length = js
  induction js generalizing out with
  | nil => rfl
  | cons j rest ih =>
      rw [List.foldl_cons, ih]
      exact Table.setValue_rows_length _ _ _ _

theorem writeColVals_row_length (c : Nat) (newVals : List JsNum) (out : Table) (r : Nat) :
    ((writeColVals c newVals out).rows.getD r []).length = (out.rows.getD r []).length := by
  unfold writeColVals
  generalize List.range newVals.length = js
  induction js generalizing out with
  | nil => rfl
  | cons j rest ih =>
      rw [List.foldl_cons, ih]
      exact Table.setValue_row_length _ _ _ _ _

theorem writeColVals_getValue_self (c : Nat) (newVals : List JsNum) (out : Table)
    (r : Nat) (hrn : r < newVals.length) (hr : r < out.rows.length)
    (hc : c < (out.rows.getD r []).length) :
    (writeColVals c newVals out).getValue r c = percentCell (newVals.getD r ⟨0, 1⟩) := by
  have frame : ∀ (js : List Nat) (out : Table), r ∉ js →
      (js.foldl (fun out j => out.setValue j c (percentCell (newVals.getD j ⟨0, 1⟩)))
        out).getValue r c = out.getValue r c := by
    intro js
    induction js with
    | nil => intro out _; rfl
    | cons j rest ih =>
        intro out hmem
        rw [List.foldl_cons, ih _ (fun hm => hmem (List.mem_cons_of_mem _ hm))]
        exact Table.getValue_setValue_ne _ _ _ _ _ _
          (Or.inl (fun he => hmem (he ▸ List.mem_cons_self _ _)))
  have aux : ∀ (js : List Nat) (out : Table), js.Nodup → r ∈ js →
      r < out.rows.length → c < (out.rows.getD r []).length →
      (js.foldl (fun out j => out.setValue j c (percentCell (newVals.getD j ⟨0, 1⟩)))
        out).getValue r c = percentCell (newVals.getD r ⟨0, 1⟩) := by
    intro js
    induction js with
    | nil => intro out _ hmem; exact absurd hmem (List.not_mem_nil _)
    | cons j rest ih =>
        intro out hnd hmem hr' hc'
        rw [List.foldl_cons]
        by_cases hj : j = r
        · subst hj
          rw [frame rest _ (List.nodup_cons.mp hnd).1]
          exact Table.getValue_setValue_self _ _ _ _ hr' hc'
        · rcases List.mem_cons.mp hmem with hmem' | hmem'
          · exact absurd hmem'.symm hj
          · refine ih _ (List.nodup_cons.mp hnd).2 hmem' ?_ ?_
            · rw [Table.setValue_rows_length]; exact hr'
            · rw [Table.setValue_row_length]; exact hc'
  exact aux _ out (List.nodup_range _) (List.mem_range.mpr hrn) hr hc

theorem getColumnEntries_length (t : Table) (c : Nat) :
    (utils.getColumnEntries t c none).length = t.rows.length := by
  simp [utils.getColumnEntries, Table.getNumberOfRows]

theorem getColumnEntries_getD (t : Table) (c : Nat) (r : Nat) (h : r < t.rows.length) :
    (utils.getColumnEntries t c none).getD r .null = t.getValue r c := by
  unfold utils.getColumnEntries
  simp only [Table.getNumberOfRows, gt_iff_lt, lt_irrefl, if_false]
  rw [list_getD_map _ _ _ _ 0 (by simpa using h), list_getD_range _ _ h]

theorem getPercentTotalArray_length (arr : List Value) :
    (utils.getPercentTotalArray arr).length = arr.length := by
  simp [utils.getPercentTotalArray]

theorem getPercentTotalArray_getD (arr : List Value) (r : Nat) (h : r < arr.length) :
    (utils.getPercentTotalArray arr).getD r ⟨0, 1⟩ =
      (arr.getD r .null).toNum.div (sumNums arr) := by
  unfold utils.getPercentTotalArray
  simp only []
  rw [list_getD_map _ _ _ _ .null h]

theorem writeColVals_colEntries_ne (c0 : Nat) (nv : List JsNum) (out : Table) (c : Nat)
    (h : c ≠ c0) :
    utils.getColumnEntries (writeColVals c0 nv out) c none =
      utils.getColumnEntries out c none := by
  unfold utils.getColumnEntries
  simp only [Table.getNumberOfRows, gt_iff_lt, lt_irrefl, if_false,
    writeColVals_rows_length]
  apply List.map_congr_left
  intro m _
  exact writeColVals_getValue_ne _ _ _ _ _ h

/-- The `'col'` conversion writes each surviving cell of a generated column
as the percent-of-original-column-total formula. -/
theorem convertColsAux_getValue_self (cols : List Nat) (out : Table) (r c : Nat)
    (hnd : cols.Nodup) (hc : c ∈ cols) (hr : r < out.rows.length)
    (hcl : c < (out.rows.getD r []).length) :
    (convertColsAux cols out).getValue r c =
      percentCell ((out.getValue r c).toNum.div
        (sumNums (utils.getColumnEntries out c none))) := by
  induction cols generalizing out with
  | nil => exact absurd hc (List.not_mem_nil _)
  | cons c0 rest ih =>
      rw [convertColsAux, List.foldl_cons]
      show (convertColsAux rest _).getValue r c = _
      by_cases hc0 : c = c0
      · subst hc0
        have hnotin : c ∉ rest := (List.nodup_cons.mp hnd).1
        rw [convertColsAux_getValue_ne _ _ _ _ hnotin]
        unfold utils.getColumnPercentTotalArray
        rw [writeColVals_getValue_self _ _ _ _
          (by rw [getPercentTotalArray_length, getColumnEntries_length]; exact hr) hr hcl]
        rw [getPercentTotalArray_getD _ _ (by rw [getColumnEntries_length]; exact hr)]
        rw [getColumnEntries_getD _ _ _ hr]
      · have hcr : c ∈ rest := by
          rcases List.mem_cons.mp hc with h | h
          · exact absurd h hc0
          · exact h
        rw [ih _ (List.nodup_cons.mp hnd).2 hcr
          (by rw [writeColVals_rows_length]; exact hr)
          (by rw [writeColVals_row_length]; exact hcl)]
        rw [writeColVals_getValue_ne _ _ _ _ _ hc0,
          writeColVals_colEntries_ne _ _ _ _ hc0]

end gvizpivot

namespace gvizpivot

/-! ## Reading back the percent-of-total writes ('row' mode) -/

theorem nodup_getD_inj (l : List Nat) (hnd : l.Nodup) (j j' : Nat)
    (hj : j < l.length) (hj' : j' < l.length) (h : l.getD j 0 = l.getD j' 0) : j = j' := by
  induction l generalizing j j' with
  | nil => exact absurd hj (by simp)
  | cons x xs ih =>
      have hx : x ∉ xs := (List.nodup_cons.mp hnd).1
      cases j with
      | zero =>
          cases j' with
          | zero => rfl
          | succ j'' =>
              exfalso
              apply hx
              rw [show (x :: xs).getD 0 0 = x from rfl] at h
              rw [List.getD_cons_succ] at h
              rw [h]
              exact list_getD_mem _ _ _ (by simpa using hj')
      | succ j'' =>
          cases j' with
          | zero =>
              exfalso
              apply hx
              rw [show (x :: xs).getD 0 0 = x from rfl] at h
              rw [List.getD_cons_succ] at h
              rw [← h]
              exact list_getD_mem _ _ _ (by simpa using hj)
          | succ j''' =>
              rw [List.getD_cons_succ, List.getD_cons_succ] at h
              rw [ih (List.nodup_cons.mp hnd).2 j'' j''' (by simpa using hj)
                (by simpa using hj') h]

theorem writeRowVals_rows_length (i : Nat) (cols : List Nat) (nv : List JsNum)
    (out : Table) : (writeRowVals i cols nv out).rows.length = out.rows.length := by
  unfold writeRowVals
  generalize List.range cols.length = js
  induction js generalizing out with
  | nil => rfl
  | cons j rest ih =>
      rw [List.foldl_cons, ih]
      exact Table.setValue_rows_length _ _ _ _

theorem writeRowVals_row_length (i : Nat) (cols : List Nat) (nv : List JsNum)
    (out : Table) (r : Nat) :
    ((writeRowVals i cols nv out).rows.getD r []).length = (out.rows.getD r []).length := by
  unfold writeRowVals
  generalize List.range cols.length = js
  induction js generalizing out with
  | nil => rfl
  | cons j rest ih =>
      rw [List.foldl_cons, ih]
      exact Table.setValue_row_length _ _ _ _ _

theorem writeRowVals_getValue_row_ne (i : Nat) (cols : List Nat) (nv : List JsNum)
    (out : Table) (r' c' : Nat) (h : r' ≠ i) :
    (writeRowVals i cols nv out).getValue r' c' = out.getValue r' c' := by
  unfold writeRowVals
  generalize List.range cols.length = js
  induction js generalizing out with
  | nil => rfl
  | cons j rest ih =>
      rw [List.foldl_cons, ih]
      exact Table.getValue_setValue_ne _ _ _ _ _ _ (Or.inl (fun he => h he.symm))

theorem writeRowVals_getValue_self (i : Nat) (cols : List Nat) (nv : List JsNum)
    (out : Table) (j0 : Nat) (hnd : cols.Nodup) (hj : j0 < cols.length)
    (hi : i < out.rows.length) (hcl : cols.getD j0 0 < (out.rows.getD i []).length) :
    (writeRowVals i cols nv out).getValue i (cols.getD j0 0) =
      percentCell (nv.getD j0 ⟨0, 1⟩) := by
  have frame : ∀ (js : List Nat) (out : Table), (∀ j ∈ js, j < cols.length ∧ j ≠ j0) →
      (js.foldl (fun out j =>
        out.setValue i (cols.getD j 0) (percentCell (nv.getD j ⟨0, 1⟩))) out).getValue
          i (cols.getD j0 0) = out.getValue i (cols.getD j0 0) := by
    intro js
    induction js with
    | nil => intro out _; rfl
    | cons j rest ih =>
        intro out hjs
        rw [List.foldl_cons, ih _ (fun x hx => hjs x (List.mem_cons_of_mem _ hx))]
        refine Table.getValue_setValue_ne _ _ _ _ _ _ (Or.inr ?_)
        intro he
        exact (hjs j (List.mem_cons_self _ _)).2
          (nodup_getD_inj cols hnd _ _ (hjs j (List.mem_cons_self _ _)).1 hj he)
  have aux : ∀ (js : List Nat) (out : Table), js.Nodup → j0 ∈ js →
      (∀ j ∈ js, j < cols.length) →
      i < out.rows.length → cols.getD j0 0 < (out.rows.getD i []).length →
      (js.foldl (fun out j =>
        out.setValue i (cols.getD j 0) (percentCell (nv.getD j ⟨0, 1⟩))) out).getValue
          i (cols.getD j0 0) = percentCell (nv.getD j0 ⟨0, 1⟩) := by
    intro js
    induction js with
    | nil => intro out _ hmem; exact absurd hmem (List.not_mem_nil _)
    | cons j rest ih =>
        intro out hndj hmem hbnd hi' hcl'
        rw [List.foldl_cons]
        by_cases hj0 : j = j0
        · subst hj0
          rw [frame rest _ (fun x hx =>
            ⟨hbnd x (List.mem_cons_of_mem _ hx),
             fun he => (List.nodup_cons.mp hndj).1 (he ▸ hx)⟩)]
          exact Table.getValue_setValue_self _ _ _ _ hi' hcl'
        · rcases List.mem_cons.mp hmem with hmem' | hmem'
          · exact absurd hmem'.symm hj0
          · refine ih _ (List.nodup_cons.mp hndj).2 hmem'
              (fun x hx => hbnd x (List.mem_cons_of_mem _ hx)) ?_ ?_
            · rw [Table.setValue_rows_length]; exact hi'
            · rw [Table.setValue_row_length]; exact hcl'
  exact aux _ out (List.nodup_range _) (List.mem_range.mpr hj)
    (fun j hjm => List.mem_range.mp hjm) hi hcl

theorem getRowValues_length (t : Table) (r : Nat) (cols : List Nat) :
    (utils.getRowValues t r cols).length = cols.length := by
  simp [utils.getRowValues]

theorem getRowValues_getD (t : Table) (r : Nat) (cols : List Nat) (j : Nat)
    (h : j < cols.length) :
    (utils.getRowValues t r cols).getD j .null = t.getValue r (cols.getD j 0) := by
  unfold utils.getRowValues
  rw [list_getD_map _ _ _ _ 0 h]

theorem writeRowVals_getRowValues_ne (i : Nat) (cols : List Nat) (nv : List JsNum)
    (out : Table) (r : Nat) (cols' : List Nat) (h : r ≠ i) :
    utils.getRowValues (writeRowVals i cols nv out) r cols' =
      utils.getRowValues out r cols' := by
  unfold utils.getRowValues
  apply List.map_congr_left
  intro c _
  exact writeRowVals_getValue_row_ne _ _ _ _ _ _ h

theorem convertRowsAux_row_frame (cols idxs : List Nat) (out : Table) (r c : Nat)
    (h : r ∉ idxs) :
    (convertRowsAux cols idxs out).getValue r c = out.getValue r c := by
  induction idxs generalizing out with
  | nil => rfl
  | cons i rest ih =>
      rw [convertRowsAux, List.foldl_cons]
      show (convertRowsAux cols rest _).getValue r c = _
      rw [ih _ (fun hm => h (List.mem_cons_of_mem _ hm))]
      exact writeRowVals_getValue_row_ne _ _ _ _ _ _
        (fun he => h (he ▸ List.mem_cons_self _ _))

/-- The `'row'` conversion writes each surviving generated cell as the
percent-of-original-row-total formula. -/
theorem convertRowsAux_getValue_self (cols idxs : List Nat) (out : Table) (r j0 : Nat)
    (hndI : idxs.Nodup) (hmem : r ∈ idxs) (hndC : cols.Nodup) (hj : j0 < cols.length)
    (hr : r < out.rows.length) (hcl : cols.getD j0 0 < (out.rows.getD r []).length) :
    (convertRowsAux cols idxs out).getValue r (cols.getD j0 0) =
      percentCell (((utils.getRowValues out r cols).getD j0 .null).toNum.div
        (sumNums (utils.getRowValues out r cols))) := by
  induction idxs generalizing out with
  | nil => exact absurd hmem (List.not_mem_nil _)
  | cons i rest ih =>
      rw [convertRowsAux, List.foldl_cons]
      show (convertRowsAux cols rest _).getValue r (cols.getD j0 0) = _
      by_cases hi : i = r
      · subst hi
        have hnotin : i ∉ rest := (List.nodup_cons.mp hndI).1
        rw [convertRowsAux_row_frame _ _ _ _ _ hnotin]
        unfold utils.getRowPercentTotalArray
        rw [writeRowVals_getValue_self _ _ _ _ _ hndC hj hr hcl]
        rw [getPercentTotalArray_getD _ _ (by rw [getRowValues_length]; exact hj)]
      · have hmr : r ∈ rest := by
          rcases List.mem_cons.mp hmem with h | h
          · exact absurd h.symm hi
          · exact h
        rw [ih _ (List.nodup_cons.mp hndI).2 hmr
          (by rw [writeRowVals_rows_length]; exact hr)
          (by rw [writeRowVals_row_length]; exact hcl)]
        rw [writeRowVals_getRowValues_ne _ _ _ _ _ _ (fun he => hi he.symm)]

end gvizpivot

namespace gvizpivot

/-! ## Claim C5 — the percent-of-total formula -/

/-- Claim C5: in `'col'` mode every surviving cell of a generated pivot
column is written as `Math.round((value / column-total) * 10000) / 100`
(the percent of the ORIGINAL column total, rounded to 2 decimal places),
and in `'row'` mode the analogous formula over the row's generated-column
total holds.  `percentCell q = round(q * 10000) / 100` is the exact rounding
expression of the source.  The nonzero-total hypotheses mark where the
rational model is faithful to JS (a zero total gives `NaN` in JS, cf. C10). -/
theorem c5_percent_of_total_formula (p : ParsedOptions) (st : PivotState)
    (hnd : (getColumnIndexesArray st).Nodup) :
    (∀ r c, p.usePercentTotalValues = some "col" →
      c ∈ getColumnIndexesArray st →
      r < st.out.rows.length →
      c < (st.out.rows.getD r []).length →
      sumNums (utils.getColumnEntries st.out c none) ≠ ⟨0, 1⟩ →
      (convertColumnsToPercentOfTotal_ p st).out.getValue r c =
        percentCell ((st.out.getValue r c).toNum.div
          (sumNums (utils.getColumnEntries st.out c none)))) ∧
    (∀ r j, p.usePercentTotalValues = some "row" →
      j < (getColumnIndexesArray st).length →
      r < st.out.rows.length →
      (getColumnIndexesArray st).getD j 0 < (st.out.rows.getD r []).length →
      sumNums (utils.getRowValues st.out r (getColumnIndexesArray st)) ≠ ⟨0, 1⟩ →
      (convertColumnsToPercentOfTotal_ p st).out.getValue r
          ((getColumnIndexesArray st).getD j 0) =
        percentCell ((st.out.getValue r ((getColumnIndexesArray st).getD j 0)).toNum.div
          (sumNums (utils.getRowValues st.out r (getColumnIndexesArray st))))) := by
  constructor
  · intro r c hmode hc hr hcl _
    simp only [convertColumnsToPercentOfTotal_]
    rw [if_pos hmode]
    exact convertColsAux_getValue_self _ _ _ _ hnd hc hr hcl
  · intro r j hmode hj hr hcl _
    have hne : ¬ p.usePercentTotalValues = some "col" := by
      rw [hmode]
      decide
    simp only [convertColumnsToPercentOfTotal_]
    rw [if_neg hne, if_pos hmode]
    have hmain := convertRowsAux_getValue_self (getColumnIndexesArray st)
      (List.range st.out.getNumberOfRows) st.out r j (List.nodup_range _)
      (List.mem_range.mpr hr) hnd hj hr hcl
    rw [getRowValues_getD _ _ _ _ hj] at hmain
    exact hmain

/-- Witness for C5 at the reachable `zeroTable`/`'col'` state (the
hypothesis is discharged; the inner formulas are universally quantified in
the conclusion). -/
theorem c5_percent_of_total_formula_witness :
    (getColumnIndexesArray c10_pre).Nodup ∧
    ((∀ r c, zeroParsed.usePercentTotalValues = some "col" →
      c ∈ getColumnIndexesArray c10_pre →
      r < c10_pre.out.rows.length →
      c < (c10_pre.out.rows.getD r []).length →
      sumNums (utils.getColumnEntries c10_pre.out c none) ≠ ⟨0, 1⟩ →
      (convertColumnsToPercentOfTotal_ zeroParsed c10_pre).out.getValue r c =
        percentCell ((c10_pre.out.getValue r c).toNum.div
          (sumNums (utils.getColumnEntries c10_pre.out c none)))) ∧
    (∀ r j, zeroParsed.usePercentTotalValues = some "row" →
      j < (getColumnIndexesArray c10_pre).length →
      r < c10_pre.out.rows.length →
      (getColumnIndexesArray c10_pre).getD j 0 < (c10_pre.out.rows.getD r []).length →
      sumNums (utils.getRowValues c10_pre.out r (getColumnIndexesArray c10_pre)) ≠ ⟨0, 1⟩ →
      (convertColumnsToPercentOfTotal_ zeroParsed c10_pre).out.getValue r
          ((getColumnIndexesArray c10_pre).getD j 0) =
        percentCell ((c10_pre.out.getValue r
            ((getColumnIndexesArray c10_pre).getD j 0)).toNum.div
          (sumNums (utils.getRowValues c10_pre.out r (getColumnIndexesArray c10_pre)))))) :=
  ⟨by decide, c5_percent_of_total_formula zeroParsed c10_pre (by decide)⟩

/-- The sample scenario with `'col'` percent conversion. -/
def samplePctParsed : ParsedOptions :=
  { sampleParsed with usePercentTotalValues := some "col" }

example :
    (performPivotConversion_ sampleTable samplePctParsed).out.rows =
      [[.str "Oli", .num ⟨0, 1⟩, .num ⟨1894, 25⟩],
       [.str "Kate", .num ⟨100, 1⟩, .num ⟨606, 25⟩]] := by decide

end gvizpivot

namespace gvizpivot

/-! ## Claim C6 — the applyOrder dispatch -/

/-- Two summary-column specs that behave identically inside
`addAggregationColumn_` (which never reads `applyOrder`). -/
def sameBehavior (a b : SummaryColumnSpec) : Prop :=
  a.label = b.label ∧ a.aggregator = b.aggregator ∧ a.formatters = b.formatters

/-- `addAggregationColumn_` is invariant under replacing each spec by one
with the same label/aggregator/formatters (in particular: any change of any
spec's `applyOrder`). -/
theorem addAggregationColumn_congr (scs scs' : List SummaryColumnSpec) (st : PivotState)
    (h : List.Forall₂ sameBehavior scs scs') :
    addAggregationColumn_ scs st = addAggregationColumn_ scs' st := by
  simp only [addAggregationColumn_]
  generalize getColumnIndexesArray st = cols
  induction h generalizing st with
  | nil => rfl
  | @cons a b l l' hab htail ih =>
      rw [List.foldl_cons, List.foldl_cons]
      obtain ⟨h1, h2, h3⟩ := hab
      have hstep :
          (let p := st.out.addColumn "number" (.str a.label)
           let out := (jsIntIter st.rowAgg).foldl
             (fun out e => out.setValue e.1 p.2
               (a.aggregator (utils.getRowValues out e.1 cols))) p.1
           let out := match a.formatters with
             | some fs => applyFormattingToColumns_ fs [p.2] out
             | none => out
           { st with out := out }) =
          (let p := st.out.addColumn "number" (.str b.label)
           let out := (jsIntIter st.rowAgg).foldl
             (fun out e => out.setValue e.1 p.2
               (b.aggregator (utils.getRowValues out e.1 cols))) p.1
           let out := match b.formatters with
             | some fs => applyFormattingToColumns_ fs [p.2] out
             | none => out
           { st with out := out }) := by
        rw [h1, h2, h3]
      exact hstep ▸ ih _
  
/-- Claim C6: with a non-empty `summaryColumns` list, (i) whether the WHOLE
batch of summary columns runs before or after percent-of-total conversion
and column formatting is decided solely by the first spec's `applyOrder`
(`"before"` versus anything else), and (ii) the result is unchanged when
later specs (or the first spec, keeping its `applyOrder`) are replaced by
specs with the same label/aggregator/formatters but arbitrary `applyOrder`
fields — later `applyOrder` fields have no effect. -/
theorem c6_applyOrder_first_spec_only (src : Table) (p : ParsedOptions)
    (s0 s0' : SummaryColumnSpec) (rest rest' : List SummaryColumnSpec)
    (hsc : p.summaryColumns = some (s0 :: rest))
    (horder : s0'.applyOrder = s0.applyOrder)
    (hrel : List.Forall₂ sameBehavior (s0 :: rest) (s0' :: rest')) :
    (performPivotConversion_ src p =
      (if s0.applyOrder = some "before" then
        formatStep p (percentStep p (addAggregationColumn_ (s0 :: rest) (coreState src p)))
      else
        addAggregationColumn_ (s0 :: rest)
          (formatStep p (percentStep p (coreState src p))))) ∧
    performPivotConversion_ src { p with summaryColumns := some (s0' :: rest') } =
      performPivotConversion_ src p := by
  have hdispatch : performPivotConversion_ src p =
      (if s0.applyOrder = some "before" then
        formatStep p (percentStep p (addAggregationColumn_ (s0 :: rest) (coreState src p)))
      else
        addAggregationColumn_ (s0 :: rest)
          (formatStep p (percentStep p (coreState src p)))) := by
    simp only [performPivotConversion_]
    rw [hsc]
    simp only [firstApplyOrder]
    by_cases h0 : s0.applyOrder = some "before"
    · rw [if_pos h0, if_pos h0, if_neg (by simp [h0])]
    · rw [if_neg h0, if_neg h0, if_pos (by simp [h0])]
  refine ⟨hdispatch, ?_⟩
  have hdispatch' : performPivotConversion_ src { p with summaryColumns := some (s0' :: rest') } =
      (if s0'.applyOrder = some "before" then
        formatStep p (percentStep p
          (addAggregationColumn_ (s0' :: rest') (coreState src p)))
      else
        addAggregationColumn_ (s0' :: rest')
          (formatStep p (percentStep p (coreState src p)))) := by
    simp only [performPivotConversion_]
    show (match some (s0' :: rest') with
      | some scs =>
          if firstApplyOrder scs ≠ some "before" then
            addAggregationColumn_ scs
              (formatStep p (percentStep p
                (match some (s0' :: rest') with
                  | some scs =>
                      if firstApplyOrder scs = some "before" then
                        addAggregationColumn_ scs (coreState src p)
                      else coreState src p
                  | none => coreState src p)))
          else formatStep p (percentStep p
                (match some (s0' :: rest') with
                  | some scs =>
                      if firstApplyOrder scs = some "before" then
                        addAggregationColumn_ scs (coreState src p)
                      else coreState src p
                  | none => coreState src p))
      | none => formatStep p (percentStep p (coreState src p))) = _
    simp only [firstApplyOrder]
    by_cases h0 : s0'.applyOrder = some "before"
    · rw [if_pos h0, if_pos h0, if_neg (by simp [h0])]
    · rw [if_neg h0, if_neg h0, if_pos (by simp [h0])]
  rw [hdispatch, hdispatch', horder]
  have hagg : ∀ st : PivotState,
      addAggregationColumn_ (s0' :: rest') st = addAggregationColumn_ (s0 :: rest) st :=
    fun st => (addAggregationColumn_congr _ _ _ hrel).symm
  by_cases h0 : s0.applyOrder = some "before"
  · rw [if_pos h0, if_pos h0, hagg]
  · rw [if_neg h0, if_neg h0, hagg]

/-- Concrete summary specs for the C6 witness: the second spec carries an
`applyOrder` of `"before"` on one side and none on the other. -/
def c6spec0 : SummaryColumnSpec := ⟨"Total", sumAgg, none, none⟩

def c6spec1 : SummaryColumnSpec := ⟨"Sub", sumAgg, none, some "before"⟩

def c6spec1' : SummaryColumnSpec := ⟨"Sub", sumAgg, none, none⟩

def c6Parsed : ParsedOptions :=
  { sampleParsed with summaryColumns := some [c6spec0, c6spec1] }

/-- Witness for C6 at the sample table: flipping the SECOND spec's
`applyOrder` (from `"before"` to absent) leaves the pivot result unchanged,
and the dispatch follows the first spec's (absent) `applyOrder`. -/
theorem c6_applyOrder_first_spec_only_witness :
    (c6Parsed.summaryColumns = some (c6spec0 :: [c6spec1]) ∧
     c6spec0.applyOrder = c6spec0.applyOrder ∧
     List.Forall₂ sameBehavior (c6spec0 :: [c6spec1]) (c6spec0 :: [c6spec1'])) ∧
    ((performPivotConversion_ sampleTable c6Parsed =
      (if c6spec0.applyOrder = some "before" then
        formatStep c6Parsed (percentStep c6Parsed
          (addAggregationColumn_ (c6spec0 :: [c6spec1]) (coreState sampleTable c6Parsed)))
      else
        addAggregationColumn_ (c6spec0 :: [c6spec1])
          (formatStep c6Parsed (percentStep c6Parsed (coreState sampleTable c6Parsed))))) ∧
    performPivotConversion_ sampleTable
        { c6Parsed with summaryColumns := some (c6spec0 :: [c6spec1']) } =
      performPivotConversion_ sampleTable c6Parsed) :=
  ⟨⟨rfl, rfl,
    List.Forall₂.cons ⟨rfl, rfl, rfl⟩ (List.Forall₂.cons ⟨rfl, rfl, rfl⟩ List.Forall₂.nil)⟩,
   c6_applyOrder_first_spec_only sampleTable c6Parsed c6spec0 c6spec0 [c6spec1] [c6spec1']
     rfl rfl
     (List.Forall₂.cons ⟨rfl, rfl, rfl⟩ (List.Forall₂.cons ⟨rfl, rfl, rfl⟩ List.Forall₂.nil))⟩

example :
    performPivotConversion_ sampleTable
        { sampleParsed with summaryColumns := some [c6spec0, c6spec1'] } =
      performPivotConversion_ sampleTable c6Parsed := by decide

end gvizpivot

namespace gvizpivot

/-! ## Index/position helpers for the grouping-pass invariant -/

/-- Position of the first occurrence of `a` in `l` (length of `l` if absent). -/
def idxOf {α : Type} [DecidableEq α] (a : α) : List α → Nat
  | [] => 0
  | b :: l => if b = a then 0 else idxOf a l + 1

theorem idxOf_append_of_mem {α : Type} [DecidableEq α] (a : α) (l l' : List α)
    (h : a ∈ l) : idxOf a (l ++ l') = idxOf a l := by
  induction l with
  | nil => exact absurd h (List.not_mem_nil _)
  | cons b rest ih =>
      by_cases hb : b = a
      · simp [idxOf, hb]
      · rcases List.mem_cons.mp h with h' | h'
        · exact absurd h'.symm hb
        · simp [idxOf, hb, ih h']

theorem idxOf_append_self {α : Type} [DecidableEq α] (a : α) (l : List α)
    (h : a ∉ l) : idxOf a (l ++ [a]) = l.length := by
  induction l with
  | nil => simp [idxOf]
  | cons b rest ih =>
      have hb : ¬ b = a := fun he => h (he ▸ List.mem_cons_self _ _)
      simp [idxOf, hb, ih (fun hm => h (List.mem_cons_of_mem _ hm))]

theorem idxOf_lt_length {α : Type} [DecidableEq α] (a : α) (l : List α)
    (h : a ∈ l) : idxOf a l < l.length := by
  induction l with
  | nil => exact absurd h (List.not_mem_nil _)
  | cons b rest ih =>
      by_cases hb : b = a
      · simp [idxOf, hb]
      · rcases List.mem_cons.mp h with h' | h'
        · exact absurd h'.symm hb
        · simp only [idxOf, if_neg hb, List.length_cons]
          exact Nat.succ_lt_succ (ih h')

/-- Pair the elements of `l` with consecutive indexes starting at `o`. -/
def withIdx {α : Type} : List α → Nat → List (α × Nat)
  | [], _ => []
  | a :: l, o => (a, o) :: withIdx l (o + 1)

theorem withIdx_map_fst {α : Type} (l : List α) (o : Nat) :
    (withIdx l o).map Prod.fst = l := by
  induction l generalizing o with
  | nil => rfl
  | cons a rest ih => simp [withIdx, ih]

theorem withIdx_append {α : Type} (l : List α) (a : α) (o : Nat) :
    withIdx (l ++ [a]) o = withIdx l o ++ [(a, o + l.length)] := by
  induction l generalizing o with
  | nil => simp [withIdx]
  | cons b rest ih =>
      show (b, o) :: withIdx (rest ++ [a]) (o + 1) =
        ((b, o) :: withIdx rest (o + 1)) ++ [(a, o + (b :: rest).length)]
      rw [ih]
      simp only [List.cons_append, List.length_cons]
      have harith : o + 1 + rest.length = o + (rest.length + 1) := by omega
      rw [harith]

theorem jsGet_withIdx_of_mem {α : Type} [DecidableEq α] (l : List α) (o : Nat) (k : α)
    (h : k ∈ l) : jsGet (withIdx l o) k = some (o + idxOf k l) := by
  induction l generalizing o with
  | nil => exact absurd h (List.not_mem_nil _)
  | cons b rest ih =>
      by_cases hb : b = k
      · simp [withIdx, jsGet, hb, idxOf]
      · rcases List.mem_cons.mp h with h' | h'
        · exact absurd h'.symm hb
        · simp only [withIdx, jsGet, if_neg hb, idxOf]
          rw [ih _ h']
          congr 1
          omega

theorem jsGet_withIdx_of_not_mem {α : Type} [DecidableEq α] (l : List α) (o : Nat) (k : α)
    (h : k ∉ l) : jsGet (withIdx l o) k = none := by
  induction l generalizing o with
  | nil => rfl
  | cons b rest ih =>
      have hb : ¬ b = k := fun he => h (he ▸ List.mem_cons_self _ _)
      simp only [withIdx, jsGet, if_neg hb]
      exact ih _ (fun hm => h (List.mem_cons_of_mem _ hm))

/-- The source-row indexes at which each distinct key string is first seen,
in first-seen order. -/
def firstReps {α : Type} [DecidableEq α] (f : Nat → α) (is : List Nat) : List Nat :=
  is.foldl (fun acc i => if f i ∈ acc.map f then acc else acc ++ [i]) []

theorem firstReps_append {α : Type} [DecidableEq α] (f : Nat → α) (is : List Nat) (i : Nat) :
    firstReps f (is ++ [i]) =
      if f i ∈ (firstReps f is).map f then firstReps f is else firstReps f is ++ [i] := by
  unfold firstReps
  rw [List.foldl_append]
  simp

theorem firstReps_map {α : Type} [DecidableEq α] (f : Nat → α) (is : List Nat) :
    (firstReps f is).map f = dedupFirst (is.map f) := by
  induction is using List.reverseRecOn with
  | nil => rfl
  | append_singleton is' i ih =>
      rw [firstReps_append, List.map_append, List.map_singleton, dedupFirst_append_singleton,
        ← ih]
      by_cases h : f i ∈ (firstReps f is').map f
      · rw [if_pos h, if_pos h]
      · rw [if_neg h, if_neg h]
        simp

theorem list_take_set {α : Type} (l : List α) (c K : Nat) (v : α) (h : K ≤ c) :
    (l.set c v).take K = l.take K := by
  induction l generalizing c K with
  | nil => rfl
  | cons x xs ih =>
      cases c with
      | zero =>
          cases K with
          | zero => rfl
          | succ K' => exact absurd h (by omega)
      | succ c' =>
          cases K with
          | zero => rfl
          | succ K' =>
              simp only [List.set, List.take]
              rw [ih c' K' (by omega)]

theorem list_set_getD_self {α : Type} (l : List α) (r : Nat) (d : α) (h : r < l.length) :
    l.set r (l.getD r d) = l := by
  induction l generalizing r with
  | nil => rfl
  | cons x xs ih =>
      cases r with
      | zero => rfl
      | succ r' =>
          simp only [List.getD_cons_succ, List.set]
          rw [ih r' (by simpa using h)]

theorem Table.setValue_keyPart (t : Table) (r c : Nat) (v : Value) (K : Nat) (h : K ≤ c) :
    (t.setValue r c v).rows.map (List.take K) = t.rows.map (List.take K) := by
  unfold Table.setValue
  by_cases hr : r < t.rows.length
  · simp only []
    rw [List.map_set, list_take_set _ _ _ _ h]
    have hg : List.take K (t.rows.getD r []) =
        (t.rows.map (List.take K)).getD r (List.take K []) :=
      (list_getD_map (List.take K) t.rows r _ [] hr).symm
    rw [hg, list_set_getD_self _ _ _ (by simpa using hr)]
  · rw [list_set_of_le _ _ _ (Nat.le_of_not_lt hr)]

end gvizpivot

namespace gvizpivot

/-! ## The grouping-pass invariant: definitions and step lemmas -/

theorem jsSet_jsSet {κ α : Type} [DecidableEq κ] (m : List (κ × α)) (k : κ) (v v' : α) :
    jsSet (jsSet m k v) k v' = jsSet m k v' := by
  induction m with
  | nil => simp [jsSet]
  | cons kv rest ih =>
      by_cases hk : kv.1 = k
      · simp [jsSet, hk]
      · simp only [jsSet, if_neg hk]
        rw [ih]

theorem jsGet_append {κ α : Type} [DecidableEq κ] (m₁ m₂ : List (κ × α)) (k : κ) :
    jsGet (m₁ ++ m₂) k =
      (match jsGet m₁ k with
       | some v => some v
       | none => jsGet m₂ k) := by
  induction m₁ with
  | nil => simp [jsGet]
  | cons kv rest ih =>
      by_cases hk : kv.1 = k
      · simp [jsGet, hk]
      · simp only [List.cons_append, jsGet, if_neg hk]
        exact ih

theorem filter_singleton {α : Type} (p : α → Bool) (a : α) :
    [a].filter p = if p a then [a] else [] := by
  cases h : p a <;> simp [List.filter, h]

/-- The output-column index `buildModel_` resolves for source row `i`
(`columnColumn_IndexMap_[String(columnEntry)]`, with the JS `undefined`
fallback read as 0 — never taken on reachable inputs). -/
def cIdx (src : Table) (p : ParsedOptions) (cm : List (String × Nat)) (i : Nat) : Nat :=
  (jsGet cm (titleOf p.columnColumn (src.getValue i p.columnColumn.column)).js_str).getD 0

/-- The raw value-column cell of source row `i`. -/
def valAt (src : Table) (p : ParsedOptions) (i : Nat) : Value :=
  src.getValue i p.valueColumn.column

/-- The source rows among `is` whose key string has first-seen position `r`
in `D` and whose pivot value resolves to output column `c`. -/
def matchesIn (src : Table) (p : ParsedOptions) (cm : List (String × Nat))
    (D : List String) (is : List Nat) (r c : Nat) : List Nat :=
  is.filter (fun i => idxOf (keyStr src p i) D = r ∧ cIdx src p cm i = c)

/-- The invariant of the `buildModel_` forward pass, relative to the
post-schema state `st2` (empty rows/model/rowAgg, fixed column map):
after processing the source rows `is`, (1-2) the column map and schema are
untouched, (3) `keysMap` maps the first-seen distinct key strings to
`0, 1, 2, …`, (4) the output holds one row per distinct key string, built
from its first representative's key tuple plus the default row, in
first-seen order, (5) the model has exactly those row indexes as keys,
(6) the model entry at `(r, c)` is exactly the value list of the source
rows mapping to `(r, c)` — absent when there are none — and (7) every model
column key is a resolved pivot-column index, (8) each row's aggregation
buffer is initialized empty. -/
def BuildInv (src : Table) (p : ParsedOptions) (st2 : PivotState) (is : List Nat)
    (acc : List (String × Nat) × PivotState) : Prop :=
  acc.2.colMap = st2.colMap ∧
  acc.2.out.cols = st2.out.cols ∧
  acc.1 = withIdx (dedupFirst (is.map (keyStr src p))) 0 ∧
  acc.2.out.rows = (firstReps (keyStr src p) is).map
      (fun i => keyTuple src p i ++ getDefaultRowExcludingKeyColumns_ st2) ∧
  acc.2.model.map Prod.fst = List.range (dedupFirst (is.map (keyStr src p))).length ∧
  (∀ r c, (jsGet acc.2.model r).bind (fun rm => jsGet rm c) =
      (if matchesIn src p st2.colMap (dedupFirst (is.map (keyStr src p))) is r c = []
       then none
       else some ((matchesIn src p st2.colMap
          (dedupFirst (is.map (keyStr src p))) is r c).map (valAt src p)))) ∧
  (∀ e ∈ acc.2.model, ∀ ce ∈ e.2, ∃ i ∈ is, cIdx src p st2.colMap i = ce.1) ∧
  acc.2.rowAgg = (List.range (dedupFirst (is.map (keyStr src p))).length).map
      (fun r => (r, ([] : List Value)))

theorem buildStep_seen (src : Table) (p : ParsedOptions)
    (acc : List (String × Nat) × PivotState) (i ridx : Nat)
    (h : jsGet acc.1 (keyStr src p i) = some ridx) :
    buildStep src p acc i =
      (acc.1,
       { acc.2 with model := (jsSet acc.2.model ridx
          (jsSet ((jsGet acc.2.model ridx).getD [])
            (cIdx src p acc.2.colMap i)
            (((jsGet ((jsGet acc.2.model ridx).getD [])
                (cIdx src p acc.2.colMap i)).getD []) ++ [valAt src p i]))) }) := by
  obtain ⟨km, st⟩ := acc
  have h' : jsGet km (keyStr src p i) = some ridx := h
  simp only [buildStep, h', Option.getD_some]
  rfl

theorem buildStep_new (src : Table) (p : ParsedOptions)
    (acc : List (String × Nat) × PivotState) (i : Nat)
    (h : jsGet acc.1 (keyStr src p i) = none) :
    buildStep src p acc i =
      (jsSet acc.1 (keyStr src p i) acc.2.out.rows.length,
       { acc.2 with
         out := (acc.2.out.addRow
           (keyTuple src p i ++ getDefaultRowExcludingKeyColumns_ acc.2)).1,
         model := (jsSet acc.2.model acc.2.out.rows.length
           (jsSet [] (cIdx src p acc.2.colMap i) [valAt src p i])),
         rowAgg := jsSet acc.2.rowAgg acc.2.out.rows.length [] }) := by
  obtain ⟨km, st⟩ := acc
  have h' : jsGet km (keyStr src p i) = none := h
  simp only [buildStep, h', jsGet_jsSet_self, Option.getD_some, jsSet_jsSet]
  rfl

end gvizpivot

namespace gvizpivot

/-! ## Auxiliary reduction lemmas for the invariant proof -/

theorem optBind_some {α β : Type} (a : α) (f : α → Option β) :
    (some a).bind f = f a := rfl

theorem optBind_none {α β : Type} (f : α → Option β) :
    (none : Option α).bind f = none := rfl

theorem jsGet_append_of_none {κ α : Type} [DecidableEq κ] (m₁ m₂ : List (κ × α)) (k : κ)
    (h : jsGet m₁ k = none) : jsGet (m₁ ++ m₂) k = jsGet m₂ k := by
  rw [jsGet_append, h]

theorem jsGet_append_of_some {κ α : Type} [DecidableEq κ] (m₁ m₂ : List (κ × α)) (k : κ)
    (v : α) (h : jsGet m₁ k = some v) : jsGet (m₁ ++ m₂) k = some v := by
  rw [jsGet_append, h]

theorem filter_append_singleton_pos {α : Type} (p : α → Bool) (l : List α) (a : α)
    (h : p a = true) : (l ++ [a]).filter p = l.filter p ++ [a] := by
  rw [List.filter_append, filter_singleton, if_pos h]

theorem filter_append_singleton_neg {α : Type} (p : α → Bool) (l : List α) (a : α)
    (h : ¬ p a = true) : (l ++ [a]).filter p = l.filter p := by
  rw [List.filter_append, filter_singleton, if_neg h, List.append_nil]

/-- The grouping-pass invariant holds along the whole forward pass. -/
theorem buildModelAux_inv (src : Table) (p : ParsedOptions) (st2 : PivotState)
    (h2r : st2.out.rows = []) (h2m : st2.model = []) (h2a : st2.rowAgg = [])
    (is : List Nat) :
    BuildInv src p st2 is (buildModelAux src p is ([], st2)) := by
  induction is using List.reverseRecOn with
  | nil =>
      have hnil : buildModelAux src p [] ([], st2) = ([], st2) := rfl
      rw [hnil]
      refine ⟨rfl, rfl, rfl, ?_, ?_, ?_, ?_, ?_⟩
      · exact h2r
      · show st2.model.map Prod.fst = _
        rw [h2m]
        simp [dedupFirst]
      · intro r c
        show (jsGet st2.model r).bind _ = _
        rw [h2m]
        have hm : matchesIn src p st2.colMap
            (dedupFirst (([] : List Nat).map (keyStr src p))) ([] : List Nat) r c = [] := rfl
        rw [hm]
        simp [jsGet]
      · intro e he
        have he' : e ∈ st2.model := he
        rw [h2m] at he'
        exact absurd he' (List.not_mem_nil _)
      · show st2.rowAgg = _
        rw [h2a]
        simp [dedupFirst]
  | append_singleton is i ih =>
      have hstep : buildModelAux src p (is ++ [i]) ([], st2) =
          buildStep src p (buildModelAux src p is ([], st2)) i := by
        unfold buildModelAux
        rw [List.foldl_append]
        rfl
      rw [hstep]
      set A := buildModelAux src p is ([], st2) with hA
      obtain ⟨i1, i2, i3, i4, i5, i6, i7, i8⟩ := ih
      rcases hget : jsGet A.1 (keyStr src p i) with _ | ridx
      · -- new key string: a fresh output row, model entry and buffer are appended
        rw [buildStep_new src p A i hget]
        have hmem : keyStr src p i ∉ dedupFirst (is.map (keyStr src p)) := by
          intro hmem
          rw [i3, jsGet_withIdx_of_mem _ _ _ hmem] at hget
          exact Option.noConfusion hget
        have hD' : dedupFirst ((is ++ [i]).map (keyStr src p)) =
            dedupFirst (is.map (keyStr src p)) ++ [keyStr src p i] := by
          rw [List.map_append, List.map_singleton, dedupFirst_append_singleton, if_neg hmem]
        have hFR : firstReps (keyStr src p) (is ++ [i]) =
            firstReps (keyStr src p) is ++ [i] := by
          rw [firstReps_append, if_neg (by rw [firstReps_map]; exact hmem)]
        have hL : A.2.out.rows.length = (dedupFirst (is.map (keyStr src p))).length := by
          rw [i4, List.length_map,
            ← List.length_map (firstReps (keyStr src p) is) (keyStr src p), firstReps_map]
        have hmodelnone : jsGet A.2.model A.2.out.rows.length = none := by
          rw [jsGet_eq_none_iff, i5, hL]
          simp
        have haggnone : jsGet A.2.rowAgg A.2.out.rows.length = none := by
          rw [jsGet_eq_none_iff, i8, hL]
          simp [List.map_map, Function.comp_def]
        have hdef : getDefaultRowExcludingKeyColumns_ A.2 =
            getDefaultRowExcludingKeyColumns_ st2 := by
          unfold getDefaultRowExcludingKeyColumns_
          rw [i1]
        have hmatchesEq : ∀ r c,
            matchesIn src p st2.colMap
              (dedupFirst (is.map (keyStr src p)) ++ [keyStr src p i]) is r c =
            matchesIn src p st2.colMap (dedupFirst (is.map (keyStr src p))) is r c := by
          intro r c
          unfold matchesIn
          apply List.filter_congr
          intro j hj
          have hjmem : keyStr src p j ∈ dedupFirst (is.map (keyStr src p)) := by
            rw [mem_dedupFirst]
            exact List.mem_map_of_mem _ hj
          simp only [idxOf_append_of_mem (keyStr src p j)
            (dedupFirst (is.map (keyStr src p))) [keyStr src p i] hjmem]
        have hidxi : idxOf (keyStr src p i)
            (dedupFirst (is.map (keyStr src p)) ++ [keyStr src p i]) =
            (dedupFirst (is.map (keyStr src p))).length :=
          idxOf_append_self _ _ hmem
        have hmatold : ∀ c, matchesIn src p st2.colMap
            (dedupFirst (is.map (keyStr src p))) is
            (dedupFirst (is.map (keyStr src p))).length c = [] := by
          intro c
          unfold matchesIn
          rw [List.filter_eq_nil_iff]
          intro j hj
          simp only [decide_eq_true_eq, not_and]
          intro h1
          exfalso
          have hjmem : keyStr src p j ∈ dedupFirst (is.map (keyStr src p)) := by
            rw [mem_dedupFirst]
            exact List.mem_map_of_mem _ hj
          have := idxOf_lt_length _ _ hjmem
          omega
        have hsb_hit : ∀ r c, (dedupFirst (is.map (keyStr src p))).length = r →
            cIdx src p st2.colMap i = c →
            matchesIn src p st2.colMap
              (dedupFirst (is.map (keyStr src p)) ++ [keyStr src p i]) (is ++ [i]) r c =
            matchesIn src p st2.colMap (dedupFirst (is.map (keyStr src p))) is r c ++ [i] := by
          intro r c h1 h2
          have hb : matchesIn src p st2.colMap
              (dedupFirst (is.map (keyStr src p)) ++ [keyStr src p i]) (is ++ [i]) r c =
              matchesIn src p st2.colMap
                (dedupFirst (is.map (keyStr src p)) ++ [keyStr src p i]) is r c ++ [i] := by
            unfold matchesIn
            exact filter_append_singleton_pos _ is i (by
              simp only [decide_eq_true_eq]
              exact ⟨by rw [hidxi]; exact h1, h2⟩)
          rw [hb, hmatchesEq r c]
        have hsb_miss : ∀ r c, ¬((dedupFirst (is.map (keyStr src p))).length = r ∧
              cIdx src p st2.colMap i = c) →
            matchesIn src p st2.colMap
              (dedupFirst (is.map (keyStr src p)) ++ [keyStr src p i]) (is ++ [i]) r c =
            matchesIn src p st2.colMap (dedupFirst (is.map (keyStr src p))) is r c := by
          intro r c hp
          have hb : matchesIn src p st2.colMap
              (dedupFirst (is.map (keyStr src p)) ++ [keyStr src p i]) (is ++ [i]) r c =
              matchesIn src p st2.colMap
                (dedupFirst (is.map (keyStr src p)) ++ [keyStr src p i]) is r c := by
            unfold matchesIn
            exact filter_append_singleton_neg _ is i (by
              simp only [decide_eq_true_eq]
              intro hand
              exact hp ⟨by rw [← hidxi]; exact hand.1, hand.2⟩)
          rw [hb, hmatchesEq r c]
        refine ⟨?_, ?_, ?_, ?_, ?_, ?_, ?_, ?_⟩
        · exact i1
        · exact i2
        · show jsSet A.1 (keyStr src p i) A.2.out.rows.length =
            withIdx (dedupFirst ((is ++ [i]).map (keyStr src p))) 0
          rw [hD', jsSet_of_not_mem _ _ _ hget, i3, withIdx_append, hL, Nat.zero_add]
        · show (A.2.out.addRow (keyTuple src p i ++
              getDefaultRowExcludingKeyColumns_ A.2)).1.rows =
            (firstReps (keyStr src p) (is ++ [i])).map
              (fun j => keyTuple src p j ++ getDefaultRowExcludingKeyColumns_ st2)
          rw [hFR, List.map_append, List.map_singleton, ← i4, hdef]
          rfl
        · show (jsSet A.2.model A.2.out.rows.length
              (jsSet [] (cIdx src p A.2.colMap i) [valAt src p i])).map Prod.fst =
            List.range (dedupFirst ((is ++ [i]).map (keyStr src p))).length
          rw [jsSet_of_not_mem _ _ _ hmodelnone, List.map_append, i5, hD',
            List.length_append, List.length_singleton, List.range_succ, hL]
          rfl
        · intro r c
          show (jsGet (jsSet A.2.model A.2.out.rows.length
              (jsSet [] (cIdx src p A.2.colMap i) [valAt src p i])) r).bind
              (fun rm => jsGet rm c) =
            (if matchesIn src p st2.colMap
                (dedupFirst ((is ++ [i]).map (keyStr src p))) (is ++ [i]) r c = []
             then none
             else some ((matchesIn src p st2.colMap
                (dedupFirst ((is ++ [i]).map (keyStr src p))) (is ++ [i]) r c).map
                  (valAt src p)))
          rw [hD', i1, hL]
          by_cases hr : (dedupFirst (is.map (keyStr src p))).length = r
          · by_cases hc : cIdx src p st2.colMap i = c
            · subst hr
              subst hc
              rw [hsb_hit _ _ rfl rfl, hmatold]
              rw [jsGet_jsSet_self]
              simp only [optBind_some]
              rw [jsGet_jsSet_self]
              simp
            · subst hr
              rw [hsb_miss _ _ (fun hand => hc hand.2), hmatold]
              rw [jsGet_jsSet_self]
              simp only [optBind_some]
              rw [jsGet_jsSet_ne _ _ _ _ hc]
              simp [jsGet]
          · rw [hsb_miss _ _ (fun hand => hr hand.1)]
            rw [jsGet_jsSet_ne _ _ _ _ hr]
            exact i6 r c
        · intro e he ce hce
          have he' : e ∈ jsSet A.2.model A.2.out.rows.length
              (jsSet [] (cIdx src p A.2.colMap i) [valAt src p i]) := he
          rcases mem_jsSet _ _ _ _ he' with hmem' | heq
          · obtain ⟨j, hj, hcj⟩ := i7 e hmem' ce hce
            exact ⟨j, List.mem_append_left _ hj, hcj⟩
          · rw [heq] at hce
            have hce' : ce ∈ jsSet ([] : List (Nat × List Value))
                (cIdx src p A.2.colMap i) [valAt src p i] := hce
            rcases mem_jsSet _ _ _ _ hce' with hmem2 | heq2
            · exact absurd hmem2 (List.not_mem_nil _)
            · rw [heq2]
              refine ⟨i, List.mem_append_right _ (by simp), ?_⟩
              show cIdx src p st2.colMap i = cIdx src p A.2.colMap i
              rw [i1]
        · show jsSet A.2.rowAgg A.2.out.rows.length [] =
            (List.range (dedupFirst ((is ++ [i]).map (keyStr src p))).length).map
              (fun r => (r, ([] : List Value)))
          rw [jsSet_of_not_mem _ _ _ haggnone, i8, hD', List.length_append,
            List.length_singleton, List.range_succ, List.map_append, hL]
          rfl
      · -- seen key string: only the model cell at the existing row is extended
        rw [buildStep_seen src p A i ridx hget]
        have hmem : keyStr src p i ∈ dedupFirst (is.map (keyStr src p)) := by
          by_contra hmem
          rw [i3, jsGet_withIdx_of_not_mem _ _ _ hmem] at hget
          exact Option.noConfusion hget
        have hridx : ridx = idxOf (keyStr src p i) (dedupFirst (is.map (keyStr src p))) := by
          rw [i3, jsGet_withIdx_of_mem _ _ _ hmem] at hget
          have h' := Option.some.inj hget
          omega
        have hD' : dedupFirst ((is ++ [i]).map (keyStr src p)) =
            dedupFirst (is.map (keyStr src p)) := by
          rw [List.map_append, List.map_singleton, dedupFirst_append_singleton, if_pos hmem]
        have hFR : firstReps (keyStr src p) (is ++ [i]) = firstReps (keyStr src p) is := by
          rw [firstReps_append, if_pos (by rw [firstReps_map]; exact hmem)]
        have hlt : ridx < (dedupFirst (is.map (keyStr src p))).length := by
          rw [hridx]
          exact idxOf_lt_length _ _ hmem
        have hrmem : ridx ∈ A.2.model.map Prod.fst := by
          rw [i5]
          simpa using hlt
        obtain ⟨rm, hrm⟩ : ∃ rm, jsGet A.2.model ridx = some rm := by
          rcases hx : jsGet A.2.model ridx with _ | rm
          · rw [jsGet_eq_none_iff] at hx
            exact absurd hrmem hx
          · exact ⟨rm, rfl⟩
        have hsplit_hit : ∀ r c, ridx = r → cIdx src p st2.colMap i = c →
            matchesIn src p st2.colMap (dedupFirst (is.map (keyStr src p))) (is ++ [i]) r c =
              matchesIn src p st2.colMap (dedupFirst (is.map (keyStr src p))) is r c ++ [i] := by
          intro r c h1 h2
          unfold matchesIn
          exact filter_append_singleton_pos _ is i (by
            simp only [decide_eq_true_eq]
            exact ⟨by rw [← hridx]; exact h1, h2⟩)
        have hsplit_miss : ∀ r c, ¬(ridx = r ∧ cIdx src p st2.colMap i = c) →
            matchesIn src p st2.colMap (dedupFirst (is.map (keyStr src p))) (is ++ [i]) r c =
              matchesIn src p st2.colMap (dedupFirst (is.map (keyStr src p))) is r c := by
          intro r c hp
          unfold matchesIn
          exact filter_append_singleton_neg _ is i (by
            simp only [decide_eq_true_eq]
            intro hand
            exact hp ⟨by rw [hridx]; exact hand.1, hand.2⟩)
        refine ⟨?_, ?_, ?_, ?_, ?_, ?_, ?_, ?_⟩
        · exact i1
        · exact i2
        · rw [hD']
          exact i3
        · rw [hFR]
          exact i4
        · show (jsSet A.2.model ridx
              (jsSet ((jsGet A.2.model ridx).getD [])
                (cIdx src p A.2.colMap i)
                (((jsGet ((jsGet A.2.model ridx).getD [])
                    (cIdx src p A.2.colMap i)).getD []) ++ [valAt src p i]))).map Prod.fst =
            List.range (dedupFirst ((is ++ [i]).map (keyStr src p))).length
          rw [hD', jsSet_map_fst_of_mem _ _ _ _ hrm]
          exact i5
        · intro r c
          show (jsGet (jsSet A.2.model ridx
              (jsSet ((jsGet A.2.model ridx).getD [])
                (cIdx src p A.2.colMap i)
                (((jsGet ((jsGet A.2.model ridx).getD [])
                    (cIdx src p A.2.colMap i)).getD []) ++ [valAt src p i]))) r).bind
              (fun rm => jsGet rm c) =
            (if matchesIn src p st2.colMap
                (dedupFirst ((is ++ [i]).map (keyStr src p))) (is ++ [i]) r c = []
             then none
             else some ((matchesIn src p st2.colMap
                (dedupFirst ((is ++ [i]).map (keyStr src p))) (is ++ [i]) r c).map
                  (valAt src p)))
          rw [hD', i1, hrm]
          simp only [Option.getD_some]
          by_cases hr : ridx = r
          · by_cases hc : cIdx src p st2.colMap i = c
            · subst hr
              subst hc
              rw [hsplit_hit _ _ rfl rfl]
              rw [jsGet_jsSet_self]
              simp only [optBind_some]
              rw [jsGet_jsSet_self]
              have hold := i6 ridx (cIdx src p st2.colMap i)
              rw [hrm] at hold
              simp only [optBind_some] at hold
              rw [hold]
              by_cases hmat : matchesIn src p st2.colMap
                  (dedupFirst (is.map (keyStr src p))) is ridx
                  (cIdx src p st2.colMap i) = []
              · rw [if_pos hmat, hmat]
                simp
              · have hne : ¬ (matchesIn src p st2.colMap
                    (dedupFirst (is.map (keyStr src p))) is ridx
                    (cIdx src p st2.colMap i) ++ [i] = []) := by simp
                rw [if_neg hmat, Option.getD_some, if_neg hne, List.map_append]
                rfl
            · subst hr
              rw [hsplit_miss _ _ (fun hand => hc hand.2)]
              rw [jsGet_jsSet_self]
              simp only [optBind_some]
              rw [jsGet_jsSet_ne _ _ _ _ hc]
              have hold := i6 ridx c
              rw [hrm] at hold
              simp only [optBind_some] at hold
              exact hold
          · rw [hsplit_miss _ _ (fun hand => hr hand.1)]
            rw [jsGet_jsSet_ne _ _ _ _ hr]
            exact i6 r c
        · intro e he ce hce
          have he' : e ∈ jsSet A.2.model ridx
              (jsSet ((jsGet A.2.model ridx).getD [])
                (cIdx src p A.2.colMap i)
                (((jsGet ((jsGet A.2.model ridx).getD [])
                    (cIdx src p A.2.colMap i)).getD []) ++ [valAt src p i])) := he
          rcases mem_jsSet _ _ _ _ he' with hmem' | heq
          · obtain ⟨j, hj, hcj⟩ := i7 e hmem' ce hce
            exact ⟨j, List.mem_append_left _ hj, hcj⟩
          · rw [heq] at hce
            have hce' : ce ∈ jsSet ((jsGet A.2.model ridx).getD [])
                (cIdx src p A.2.colMap i)
                (((jsGet ((jsGet A.2.model ridx).getD [])
                    (cIdx src p A.2.colMap i)).getD []) ++ [valAt src p i]) := hce
            rcases mem_jsSet _ _ _ _ hce' with hmem2 | heq2
            · have hrm' : ((jsGet A.2.model ridx).getD []) = rm := by
                rw [hrm]
                rfl
              rw [hrm'] at hmem2
              obtain ⟨j, hj, hcj⟩ := i7 (ridx, rm) (jsGet_mem _ _ _ hrm) ce hmem2
              exact ⟨j, List.mem_append_left _ hj, hcj⟩
            · rw [heq2]
              refine ⟨i, List.mem_append_right _ (by simp), ?_⟩
              show cIdx src p st2.colMap i = cIdx src p A.2.colMap i
              rw [i1]
        · rw [hD']
          exact i8

end gvizpivot

namespace gvizpivot

/-! ## The post-schema state and phase projections -/

theorem schema_rows_nil (src : Table) (p : ParsedOptions) :
    (addColumnColumns_ src p (addKeyColumns_ src p initState)).out.rows = [] := by
  unfold addColumnColumns_ addKeyColumns_
  apply addColumnColumnsAux_rows_nil
  apply addKeyColumnsAux_rows_nil
  rfl

theorem schema_model_nil (src : Table) (p : ParsedOptions) :
    (addColumnColumns_ src p (addKeyColumns_ src p initState)).model = [] := by
  unfold addColumnColumns_ addKeyColumns_
  rw [addColumnColumnsAux_model, addKeyColumnsAux_model]
  rfl

theorem schema_rowAgg_nil (src : Table) (p : ParsedOptions) :
    (addColumnColumns_ src p (addKeyColumns_ src p initState)).rowAgg = [] := by
  unfold addColumnColumns_ addKeyColumns_
  rw [addColumnColumnsAux_rowAgg, addKeyColumnsAux_rowAgg]
  rfl

theorem writeTableFromModel_model (p : ParsedOptions) (st : PivotState) :
    (writeTableFromModel_ p st).model = st.model := by
  unfold writeTableFromModel_
  rcases hw : writeAux p.columnColumn.aggregator (jsIntIter st.model)
      (st.out, st.rowAgg, Value.null) with ⟨o, ra, v⟩
  rfl

theorem addAggregationColumn_model (scs : List SummaryColumnSpec) (st : PivotState) :
    (addAggregationColumn_ scs st).model = st.model := by
  unfold addAggregationColumn_
  generalize getColumnIndexesArray st = cols
  induction scs generalizing st with
  | nil => rfl
  | cons sc rest ih =>
      rw [List.foldl_cons, ih]

theorem convertColumnsToPercentOfTotal_model (p : ParsedOptions) (st : PivotState) :
    (convertColumnsToPercentOfTotal_ p st).model = st.model := by
  simp only [convertColumnsToPercentOfTotal_]
  split
  · rfl
  · split
    · rfl
    · rfl

theorem percentStep_model (p : ParsedOptions) (st : PivotState) :
    (percentStep p st).model = st.model := by
  unfold percentStep
  rcases hu : p.usePercentTotalValues with _ | v
  · rfl
  · exact convertColumnsToPercentOfTotal_model p st

theorem formatStep_model (p : ParsedOptions) (st : PivotState) :
    (formatStep p st).model = st.model := by
  unfold formatStep
  rcases hf : p.columnColumn.formatters with _ | fs
  · rfl
  · rfl

theorem performPivotConversion_model (src : Table) (p : ParsedOptions) :
    (performPivotConversion_ src p).model = (coreState src p).model := by
  simp only [performPivotConversion_]
  rcases hs : p.summaryColumns with _ | scs
  · rw [formatStep_model, percentStep_model]
  · simp only []
    by_cases hb : firstApplyOrder scs = some "before"
    · rw [if_pos hb]
      have hne : ¬ (firstApplyOrder scs ≠ some "before") := by simpa using hb
      rw [if_neg hne, formatStep_model, percentStep_model, addAggregationColumn_model]
    · rw [if_neg hb, if_pos hb, addAggregationColumn_model, formatStep_model,
        percentStep_model]

/-! ## Row-count preservation by the post-model phases -/

theorem writeStep_rows_length (agg : List Value → Value)
    (acc : Table × List (Nat × List Value) × Value)
    (entry : Nat × List (Nat × List Value)) :
    (writeStep agg acc entry).1.rows.length = acc.1.rows.length := by
  obtain ⟨out, rowAgg, rv⟩ := acc
  obtain ⟨ri, rmod⟩ := entry
  show (((jsIntIter rmod).foldl
      (fun (acc2 : Table × Value) (cell : Nat × List Value) =>
        (acc2.1.setValue ri cell.1 (agg cell.2), agg cell.2)) (out, rv)).1).rows.length =
    out.rows.length
  generalize jsIntIter rmod = cells
  induction cells generalizing out rv with
  | nil => rfl
  | cons cell rest ih =>
      rw [List.foldl_cons]
      exact (ih (out.setValue ri cell.1 (agg cell.2)) (agg cell.2)).trans
        (Table.setValue_rows_length _ _ _ _)

theorem writeAux_rows_length (agg : List Value → Value)
    (entries : List (Nat × List (Nat × List Value)))
    (acc : Table × List (Nat × List Value) × Value) :
    (writeAux agg entries acc).1.rows.length = acc.1.rows.length := by
  unfold writeAux
  induction entries generalizing acc with
  | nil => rfl
  | cons e rest ih =>
      rw [List.foldl_cons, ih]
      exact writeStep_rows_length _ _ _

theorem writeTableFromModel_rows_length (p : ParsedOptions) (st : PivotState) :
    (writeTableFromModel_ p st).out.rows.length = st.out.rows.length := by
  unfold writeTableFromModel_
  have h := writeAux_rows_length p.columnColumn.aggregator (jsIntIter st.model)
      (st.out, st.rowAgg, Value.null)
  rcases hw : writeAux p.columnColumn.aggregator (jsIntIter st.model)
      (st.out, st.rowAgg, Value.null) with ⟨o, ra, v⟩
  rw [hw] at h
  exact h

theorem convertColsAux_rows_length (cols : List Nat) (out : Table) :
    (convertColsAux cols out).rows.length = out.rows.length := by
  unfold convertColsAux
  induction cols generalizing out with
  | nil => rfl
  | cons c rest ih =>
      rw [List.foldl_cons, ih]
      exact writeColVals_rows_length _ _ _

theorem convertRowsAux_rows_length (cols idxs : List Nat) (out : Table) :
    (convertRowsAux cols idxs out).rows.length = out.rows.length := by
  unfold convertRowsAux
  induction idxs generalizing out with
  | nil => rfl
  | cons i rest ih =>
      rw [List.foldl_cons, ih]
      exact writeRowVals_rows_length _ _ _ _

theorem convertColumnsToPercentOfTotal_rows_length (p : ParsedOptions) (st : PivotState) :
    (convertColumnsToPercentOfTotal_ p st).out.rows.length = st.out.rows.length := by
  simp only [convertColumnsToPercentOfTotal_]
  split
  · exact convertColsAux_rows_length _ _
  · split
    · exact convertRowsAux_rows_length _ _ _
    · rfl

theorem percentStep_rows_length (p : ParsedOptions) (st : PivotState) :
    (percentStep p st).out.rows.length = st.out.rows.length := by
  unfold percentStep
  rcases hu : p.usePercentTotalValues with _ | v
  · rfl
  · exact convertColumnsToPercentOfTotal_rows_length p st

end gvizpivot

namespace gvizpivot

/-- Claim C2: for every source table, configuration, output row index `r`
and output column index `c`, `getModel()[r][c]` is present exactly when
some source row's key string maps to output row `r` and its transformed
pivot value maps to output column `c`, and in that case its length equals
the number of such source rows (so never an empty list for an unobserved
combination). -/
theorem c2_model_roundtrip (src : Table) (p : ParsedOptions) (r c : Nat) :
    ((jsGet (getModel (performPivotConversion_ src p)) r).bind
        (fun rm => jsGet rm c)).map List.length =
      (if (matchesIn src p (addColumnColumns_ src p (addKeyColumns_ src p initState)).colMap
            (dedupFirst ((List.range src.getNumberOfRows).map (keyStr src p)))
            (List.range src.getNumberOfRows) r c).length = 0
       then none
       else some ((matchesIn src p
            (addColumnColumns_ src p (addKeyColumns_ src p initState)).colMap
            (dedupFirst ((List.range src.getNumberOfRows).map (keyStr src p)))
            (List.range src.getNumberOfRows) r c).length)) := by
  have hmodel : getModel (performPivotConversion_ src p) =
      (buildModelAux src p (List.range src.getNumberOfRows)
        ([], addColumnColumns_ src p (addKeyColumns_ src p initState))).2.model := by
    show (performPivotConversion_ src p).model = _
    rw [performPivotConversion_model, coreState]
    rw [writeTableFromModel_model]
    rfl
  rw [hmodel]
  have hinv := buildModelAux_inv src p
      (addColumnColumns_ src p (addKeyColumns_ src p initState))
      (schema_rows_nil src p) (schema_model_nil src p) (schema_rowAgg_nil src p)
      (List.range src.getNumberOfRows)
  obtain ⟨_, _, _, _, _, i6, _, _⟩ := hinv
  rw [i6 r c]
  by_cases hmat : matchesIn src p
      (addColumnColumns_ src p (addKeyColumns_ src p initState)).colMap
      (dedupFirst ((List.range src.getNumberOfRows).map (keyStr src p)))
      (List.range src.getNumberOfRows) r c = []
  · have hz : (matchesIn src p
        (addColumnColumns_ src p (addKeyColumns_ src p initState)).colMap
        (dedupFirst ((List.range src.getNumberOfRows).map (keyStr src p)))
        (List.range src.getNumberOfRows) r c).length = 0 := by
      rw [hmat]
      rfl
    rw [if_pos hmat, if_pos hz]
    rfl
  · have hnz : ¬ ((matchesIn src p
        (addColumnColumns_ src p (addKeyColumns_ src p initState)).colMap
        (dedupFirst ((List.range src.getNumberOfRows).map (keyStr src p)))
        (List.range src.getNumberOfRows) r c).length = 0) :=
      fun h => hmat (List.length_eq_zero.mp h)
    rw [if_neg hmat, if_neg hnz]
    simp

/-- Claim C1 (amended): the key map is keyed by the COMMA-JOINED STRING of
the transformed key tuple, not the tuple itself (distinct tuples whose
joined strings collide share one row, see the counterexample).  Amended
statement: with no column formatters and no summary columns configured,
the number of output rows equals the number of distinct key STRINGS
observed, and the model-construction pass creates exactly one output row
per distinct key string, in first-seen order, each initialized from its
first representative's key tuple followed by the default pivot cells. -/
theorem c1_one_row_per_key_string (src : Table) (p : ParsedOptions)
    (hf : p.columnColumn.formatters = none) (hs : p.summaryColumns = none) :
    (getDataTable (performPivotConversion_ src p)).rows.length =
      (dedupFirst ((List.range src.getNumberOfRows).map (keyStr src p))).length ∧
    (buildModel_ src p (addColumnColumns_ src p (addKeyColumns_ src p initState))).out.rows =
      (firstReps (keyStr src p) (List.range src.getNumberOfRows)).map
        (fun i => keyTuple src p i ++ getDefaultRowExcludingKeyColumns_
          (addColumnColumns_ src p (addKeyColumns_ src p initState))) := by
  have hinv := buildModelAux_inv src p
      (addColumnColumns_ src p (addKeyColumns_ src p initState))
      (schema_rows_nil src p) (schema_model_nil src p) (schema_rowAgg_nil src p)
      (List.range src.getNumberOfRows)
  obtain ⟨_, _, _, i4, _, _, _, _⟩ := hinv
  constructor
  · show (performPivotConversion_ src p).out.rows.length = _
    have h1 : performPivotConversion_ src p =
        formatStep p (percentStep p (coreState src p)) := by
      simp only [performPivotConversion_, hs]
    have h2 : formatStep p (percentStep p (coreState src p)) =
        percentStep p (coreState src p) := by
      simp only [formatStep, hf]
    rw [h1, h2, percentStep_rows_length]
    show (writeTableFromModel_ p (buildModel_ src p (addColumnColumns_ src p
        (addKeyColumns_ src p initState)))).out.rows.length = _
    rw [writeTableFromModel_rows_length]
    show (buildModelAux src p (List.range src.getNumberOfRows)
        ([], addColumnColumns_ src p (addKeyColumns_ src p initState))).2.out.rows.length = _
    rw [i4, List.length_map, ← List.length_map (firstReps (keyStr src p)
        (List.range src.getNumberOfRows)) (keyStr src p), firstReps_map]
  · show (buildModelAux src p (List.range src.getNumberOfRows)
        ([], addColumnColumns_ src p (addKeyColumns_ src p initState))).2.out.rows = _
    exact i4

/-- The amended C1 theorem instantiated at the spec scenario table. -/
theorem c1_one_row_per_key_string_witness :
    sampleParsed.columnColumn.formatters = none ∧
    sampleParsed.summaryColumns = none ∧
    ((getDataTable (performPivotConversion_ sampleTable sampleParsed)).rows.length =
      (dedupFirst ((List.range sampleTable.getNumberOfRows).map
        (keyStr sampleTable sampleParsed))).length ∧
     (buildModel_ sampleTable sampleParsed (addColumnColumns_ sampleTable sampleParsed
        (addKeyColumns_ sampleTable sampleParsed initState))).out.rows =
      (firstReps (keyStr sampleTable sampleParsed)
          (List.range sampleTable.getNumberOfRows)).map
        (fun i => keyTuple sampleTable sampleParsed i ++ getDefaultRowExcludingKeyColumns_
          (addColumnColumns_ sampleTable sampleParsed
            (addKeyColumns_ sampleTable sampleParsed initState)))) :=
  ⟨rfl, rfl, c1_one_row_per_key_string sampleTable sampleParsed rfl rfl⟩

end gvizpivot
